import Mathlib

/-! Verification of the time-auction-server room/round engine.

Shallow embedding of `time-auction-server/index.js` (the later revision in the
repository, which tracks `isEliminated`).  Players and rooms are plain records;
the Socket.IO interval/timeout handles are modelled as booleans ("a handle is
live") and a counter of pending `setTimeout(startNewRound)` callbacks.  Every
game-flow function of the source is translated one-to-one below.

JavaScript `game.players` and `game.activePlayersInRound` hold references to
the *same* player objects, so an in-place mutation of a player that is still a
room member is visible through both lists, while a player removed from
`players` keeps the state they had at removal inside `activePlayersInRound`.
The helpers `Game.updPlayer` / `Game.updateAllPlayers` reproduce exactly this
write-through behaviour.
-/

/-- A player record (`newPlayer` object in `createRoom`/`joinRoom`).
`id` is the socket id, `name` the display name (both rendered as `Nat`),
`time` the remaining time budget in seconds. -/
structure Player where
  id : Nat
  name : Nat
  time : Int
  tokens : Nat
  isHoldingButton : Bool
  hasOptedOut : Bool
  roundHoldDuration : Int
  isEliminated : Bool
deriving Repr, DecidableEq, Inhabited

/-- The `game.status` strings of the source. -/
inductive Status
  | waiting
  | preCountdown
  | inRound
  | roundEnded
  | gameOver
deriving Repr, DecidableEq, Inhabited

/-- The reason strings passed to `gameEnded`. -/
inductive EndReason
  | soleSurvivor
  | allEliminated
  | roundsExhausted
  | insufficientPlayers
deriving Repr, DecidableEq, Inhabited

/-- The `finalWinner` object of the `gameOver` broadcast: either one winner id
or the tied set of winner ids (empty when every player was eliminated). -/
structure FinalWinner where
  isTie : Bool
  winnerIds : List Nat
deriving Repr, DecidableEq, Inhabited

/-- A game room (`games[roomId]` object).  `preRoundIntervalId` /
`roundTimerIntervalId` are `true` exactly when the corresponding interval
handle of the source is non-null.  `pendingStartNewRound` counts scheduled
`setTimeout(() => startNewRound(roomId), _)` callbacks that have not fired
yet.  The last four fields record the payloads of the outbound
`roundWinnerAnnounced` / `gameOver` broadcasts. -/
structure Game where
  players : List Player
  status : Status
  currentRound : Nat
  maxRounds : Nat
  preRoundCountdown : Int
  preRoundIntervalId : Bool
  roundElapsedTime : Nat
  roundTimerIntervalId : Bool
  activePlayersInRound : List Player
  pendingStartNewRound : Nat
  gameOverReason : Option EndReason
  finalWinner : Option FinalWinner
  finalPlayersBroadcast : Option (List Player)
  lastRoundWinners : Option (List Nat × Int)
deriving Repr, DecidableEq, Inhabited

/-- `clearGameIntervals(game)`: both interval handles become null. -/
def clearGameIntervals (g : Game) : Game :=
  { g with preRoundIntervalId := false, roundTimerIntervalId := false }

/-- In-place mutation of the player object found by
`game.players.find(p => p.id === pid)`.  The same object is aliased by any
entry of `activePlayersInRound` with that id, so both lists are rewritten. -/
def Game.updPlayer (g : Game) (pid : Nat) (f : Player → Player) : Game :=
  { g with
    players := g.players.map (fun p => if p.id = pid then f p else p)
    activePlayersInRound :=
      g.activePlayersInRound.map (fun p => if p.id = pid then f p else p) }

/-- In-place mutation performed by `game.players.forEach(p => ...)`.  Entries
of `activePlayersInRound` whose player is still a room member alias the
mutated object; entries of players no longer in `players` are stale objects
and keep their frozen state. -/
def Game.updateAllPlayers (g : Game) (f : Player → Player) : Game :=
  { g with
    players := g.players.map f
    activePlayersInRound :=
      g.activePlayersInRound.map
        (fun a => if g.players.any (fun p => p.id = a.id) then f a else a) }

/-- Descending comparison used by `gameEnded`'s
`sort((a, b) => b.tokens !== a.tokens ? b.tokens - a.tokens : b.time - a.time)`:
`lexGe a b` holds when `a` sorts no later than `b`. -/
def lexGe (a b : Player) : Bool :=
  decide (b.tokens < a.tokens) || (a.tokens = b.tokens && decide (b.time ≤ a.time))

/-- Insertion step of the sort modelling the JavaScript `Array.prototype.sort`
call in `gameEnded` (any sorted permutation has the same head values and the
same filtered co-winner set, which is all `gameEnded` uses). -/
def insertLex (p : Player) : List Player → List Player
  | [] => [p]
  | q :: rest => if lexGe p q then p :: q :: rest else q :: insertLex p rest

/-- `[...alivePlayers].sort(...)` of `gameEnded`. -/
def sortLexPlayers (l : List Player) : List Player :=
  l.foldr insertLex []

/-- `gameEnded(roomId, reason)`: terminal transition.  Ranks the non-eliminated
players by tokens then time, computes the single winner or the tied co-winner
set, and broadcasts the final standings of *all* players. -/
def gameEnded (g : Game) (reason : EndReason) : Game :=
  let g := clearGameIntervals
    { g with status := Status.gameOver, gameOverReason := some reason }
  let alivePlayers := g.players.filter (fun p => !p.isEliminated)
  let fw :=
    if alivePlayers.isEmpty then
      -- "無人" placeholder: no final winner at all
      FinalWinner.mk false []
    else
      let sortedPlayers := sortLexPlayers alivePlayers
      let topPlayer := sortedPlayers.headI
      let coWinners := sortedPlayers.filter
        (fun p => p.tokens = topPlayer.tokens && p.time = topPlayer.time)
      if 1 < coWinners.length then
        FinalWinner.mk true (coWinners.map (fun p => p.id))
      else
        FinalWinner.mk false [topPlayer.id]
  { g with finalWinner := some fw, finalPlayersBroadcast := some g.players }

/-- `startNewRound(roomId)`: either ends the game (sole survivor /
all eliminated / max rounds reached) or advances to the next round. -/
def startNewRound (g : Game) : Game :=
  let alivePlayers := g.players.filter (fun p => !p.isEliminated)
  if alivePlayers.length ≤ 1 ∧ 0 < g.currentRound then
    gameEnded g
      (if alivePlayers.length = 1 then EndReason.soleSurvivor
       else EndReason.allEliminated)
  else if g.maxRounds ≤ g.currentRound then
    gameEnded g EndReason.roundsExhausted
  else
    ({ g with
        currentRound := g.currentRound + 1
        preRoundCountdown := 0
        roundElapsedTime := 0
        status := Status.waiting }).updateAllPlayers
      (fun p =>
        { p with isHoldingButton := false, hasOptedOut := false,
                 roundHoldDuration := 0 })

/-- `startPreRoundCountdown(roomId)`: re-checks the arming condition over the
non-eliminated players and, when met, enters `preCountdown` with a 5-second
countdown, resetting `hasOptedOut`/`roundHoldDuration` for all players and
installing the countdown interval. -/
def startPreRoundCountdown (g : Game) : Game :=
  if g.status = Status.preCountdown ∨ g.status = Status.inRound then g
  else
    let alivePlayers := g.players.filter (fun p => !p.isEliminated)
    let playerCount := alivePlayers.length
    let allPlayersHolding := alivePlayers.all (fun p => p.isHoldingButton)
    let shouldStartCountdown :=
      if playerCount = 1 then allPlayersHolding
      else decide (2 ≤ playerCount) && allPlayersHolding
    if shouldStartCountdown then
      let g := { g with status := Status.preCountdown, preRoundCountdown := 5 }
      let g := g.updateAllPlayers
        (fun p => { p with hasOptedOut := false, roundHoldDuration := 0 })
      { g with preRoundIntervalId := true }
    else g

/-- `handlePreRoundEndOnServer(roomId)`: countdown-end resolution.  Time-spent
players are opted out and permanently eliminated, non-holding players are
opted out, the active-player snapshot is taken, and the room either enters
`inRound` (bidding interval installed) or schedules `startNewRound`. -/
def handlePreRoundEnd (g : Game) : Game :=
  let g := g.updateAllPlayers (fun p =>
    if p.time ≤ 0 ∧ p.hasOptedOut = false ∧ p.isEliminated = false then
      { p with hasOptedOut := true, isEliminated := true }
    else if p.isHoldingButton = false ∧ p.hasOptedOut = false ∧
        p.isEliminated = false then
      { p with hasOptedOut := true }
    else p)
  let newActive : List Player := g.players.filter
    (fun p => p.isHoldingButton && !p.hasOptedOut && !p.isEliminated)
  let g := { g with activePlayersInRound := newActive }
  if g.activePlayersInRound.length < 1 then
    -- setTimeout(() => startNewRound(roomId), 2000)
    { g with pendingStartNewRound := g.pendingStartNewRound + 1 }
  else
    { g with status := Status.inRound, roundElapsedTime := 0,
             roundTimerIntervalId := true }

/-- The winner scan of `endRoundOnServer`: the fold over
`game.activePlayersInRound` accumulating `(maxHoldDuration, winningPlayers)`,
considering only players that are neither eliminated nor opted out. -/
def roundWinnersCalc (active : List Player) : Int × List Player :=
  active.foldl
    (fun (acc : Int × List Player) (p : Player) =>
      if p.isEliminated = false ∧ p.hasOptedOut = false then
        if acc.1 < p.roundHoldDuration then (p.roundHoldDuration, [p])
        else if p.roundHoldDuration = acc.1 then (acc.1, acc.2 ++ [p])
        else acc
      else acc)
    (0, [])

/-- `endRoundOnServer(roomId)`: round resolution.  Every winner (all members
of a tie) gains a token and pays the maximal hold duration; if the maximum is
0 or no eligible player exists, nothing changes.  Afterwards every player's
holding and opt-out flags are reset and `startNewRound` is scheduled. -/
def endRoundOnServer (g : Game) : Game :=
  let g := { g with status := Status.roundEnded }
  let res := roundWinnersCalc g.activePlayersInRound
  let maxHoldDuration := res.1
  let winningPlayers := res.2
  let g :=
    if maxHoldDuration = 0 ∨ winningPlayers.length = 0 then g
    else
      let winnerIds := winningPlayers.map (fun p => p.id)
      { g with
        players := g.players.map (fun p =>
          if winnerIds.contains p.id then
            { p with tokens := p.tokens + 1, time := p.time - maxHoldDuration }
          else p)
        activePlayersInRound := g.activePlayersInRound.map (fun p =>
          if winnerIds.contains p.id then
            { p with tokens := p.tokens + 1, time := p.time - maxHoldDuration }
          else p) }
  let g := { g with
    lastRoundWinners := some (winningPlayers.map (fun p : Player => p.id),
                              maxHoldDuration) }
  let g := g.updateAllPlayers
    (fun p => { p with isHoldingButton := false, hasOptedOut := false })
  -- setTimeout(() => startNewRound(roomId), 3000)
  { g with pendingStartNewRound := g.pendingStartNewRound + 1 }

/-- `checkAllReleasedOnServer(roomId)`: during `inRound`, once every member of
the active snapshot is missing, not holding, opted out, or eliminated, the
bidding interval is cleared and the round is resolved. -/
def checkAllReleased (g : Game) : Game :=
  if g.status = Status.inRound then
    let allActiveReleased := g.activePlayersInRound.all (fun p =>
      match g.players.find? (fun gp => gp.id = p.id) with
      | none => true
      | some cur => !cur.isHoldingButton || cur.hasOptedOut || cur.isEliminated)
    if allActiveReleased then endRoundOnServer (clearGameIntervals g) else g
  else g

/-- One firing of the bidding interval installed by `handlePreRoundEnd`:
elapsed time advances, every holding eligible player accrues hold time and is
force-released and eliminated when the accrued time reaches their budget, then
the release check runs. -/
def roundTick (g : Game) : Game :=
  if g.roundTimerIntervalId then
    let g := { g with roundElapsedTime := g.roundElapsedTime + 1 }
    let g := g.updateAllPlayers (fun p =>
      if p.isHoldingButton = true ∧ p.hasOptedOut = false ∧
          p.isEliminated = false then
        let p := { p with roundHoldDuration := p.roundHoldDuration + 1 }
        if p.time - p.roundHoldDuration ≤ 0 then
          { p with isHoldingButton := false, roundHoldDuration := p.time,
                   hasOptedOut := true, isEliminated := true }
        else p
      else p)
    checkAllReleased g
  else g

/-- One firing of the countdown interval installed by
`startPreRoundCountdown`: the countdown decrements and, on reaching 0, the
interval is cleared and `handlePreRoundEndOnServer` runs. -/
def countdownTick (g : Game) : Game :=
  if g.preRoundIntervalId then
    let g := { g with preRoundCountdown := g.preRoundCountdown - 1 }
    if g.preRoundCountdown ≤ 0 then
      handlePreRoundEnd { g with preRoundIntervalId := false }
    else g
  else g

/-- The `playerHolding` socket handler: a found, non-eliminated player with
time left who is not already holding starts holding; in `waiting`/`roundEnded`
the arming check over the non-eliminated players may start the countdown. -/
def playerHolding (g : Game) (pid : Nat) : Game :=
  match g.players.find? (fun p => p.id = pid) with
  | none => g
  | some player =>
    if player.time ≤ 0 ∨ player.isEliminated = true then g
    else if player.isHoldingButton = true then g
    else
      let g := g.updPlayer pid (fun p => { p with isHoldingButton := true })
      if g.status = Status.waiting ∨ g.status = Status.roundEnded then
        let alivePlayers := g.players.filter (fun p => !p.isEliminated)
        let playerCount := alivePlayers.length
        let allPlayersHolding := alivePlayers.all (fun p => p.isHoldingButton)
        if playerCount = 1 then
          if allPlayersHolding = true ∧ g.preRoundIntervalId = false then
            startPreRoundCountdown g
          else g
        else
          if 2 ≤ playerCount ∧ allPlayersHolding = true ∧
              g.preRoundIntervalId = false then
            startPreRoundCountdown g
          else g
      else g

/-- The `playerReleased` socket handler (final revision): a holding player
stops holding; during `preCountdown` with a live countdown the player is
marked opted out and the countdown continues; during `inRound` the release
check runs. -/
def playerReleased (g : Game) (pid : Nat) : Game :=
  match g.players.find? (fun p => p.id = pid) with
  | none => g
  | some player =>
    if player.isHoldingButton = true then
      let g := g.updPlayer pid (fun p => { p with isHoldingButton := false })
      if g.status = Status.preCountdown ∧ g.preRoundIntervalId = true then
        g.updPlayer pid (fun p => { p with hasOptedOut := true })
      else if g.status = Status.inRound then
        checkAllReleased g
      else g
    else g

/-- The `leaveRoom` socket handler; the `disconnect` handler of the final
revision performs the identical state updates.  `none` models the deletion of
an emptied room (its timers are cleared with it). -/
def leaveRoom (g : Game) (pid : Nat) : Option Game :=
  let disconnectedPlayer := g.players.find? (fun p => p.id = pid)
  let g := { g with players := g.players.filter (fun p => !(p.id = pid : Bool)) }
  if g.players.isEmpty then none
  else
    let aliveCount := (g.players.filter (fun p => !p.isEliminated)).length
    if (g.status = Status.preCountdown ∨ g.status = Status.inRound) ∧
        aliveCount < 2 then
      some (gameEnded g EndReason.insufficientPlayers)
    else
      match disconnectedPlayer with
      | some dp =>
        if g.status = Status.preCountdown ∧ dp.isHoldingButton = true ∧
            g.preRoundIntervalId = true then
          let g := { g with preRoundIntervalId := false,
                            status := Status.waiting }
          let allAliveHolding := (g.players.filter (fun p => !p.isEliminated)).all
            (fun p => p.isHoldingButton)
          some (if allAliveHolding then startPreRoundCountdown g
                -- setTimeout(() => startNewRound(roomId), 1000)
                else { g with
                       pendingStartNewRound := g.pendingStartNewRound + 1 })
        else if g.status = Status.inRound ∧ dp.isHoldingButton = true then
          some (checkAllReleased g)
        else some g
      | none => some g

/-- The join-time rejections of the `joinRoom` handler. -/
inductive JoinErr
  | roomNotFound
  | phaseNotJoinable
  | roomFull
  | nameTaken
deriving Repr, DecidableEq, Inhabited

/-- The `joinRoom` socket handler: validates existence, joinable phase,
capacity and name uniqueness, then appends a fresh player whose `time` is
copied from `game.players[0].time`.  A failure leaves the room untouched. -/
def joinRoom (og : Option Game) (pid pname : Nat) : JoinErr ⊕ Game :=
  match og with
  | none => Sum.inl JoinErr.roomNotFound
  | some g =>
    if ¬(g.status = Status.waiting ∨ g.status = Status.roundEnded ∨
         g.status = Status.gameOver) then
      Sum.inl JoinErr.phaseNotJoinable
    else if 4 ≤ g.players.length then
      Sum.inl JoinErr.roomFull
    else if g.players.any (fun p => p.name = pname) then
      Sum.inl JoinErr.nameTaken
    else
      let newPlayer : Player :=
        { id := pid, name := pname,
          time := g.players.headI.time,   -- game.players[0].time
          tokens := 0, isHoldingButton := false, hasOptedOut := false,
          roundHoldDuration := 0, isEliminated := false }
      Sum.inr { g with players := g.players ++ [newPlayer] }

/-- The `createRoom` handler: validates `initialTime ∈ [10, 600]` and
`maxRounds ∈ [1, 50]`, registers the room with its creator and immediately
runs the first `startNewRound`. -/
def createRoom (pid pname : Nat) (initialTime : Int) (maxRounds : Nat) :
    Option Game :=
  if initialTime < 10 ∨ 600 < initialTime then none
  else if maxRounds < 1 ∨ 50 < maxRounds then none
  else
    let newPlayer : Player :=
      { id := pid, name := pname, time := initialTime, tokens := 0,
        isHoldingButton := false, hasOptedOut := false,
        roundHoldDuration := 0, isEliminated := false }
    some (startNewRound
      { players := [newPlayer], status := Status.waiting, currentRound := 0,
        maxRounds := maxRounds, preRoundCountdown := 0,
        preRoundIntervalId := false, roundElapsedTime := 0,
        roundTimerIntervalId := false, activePlayersInRound := [],
        pendingStartNewRound := 0, gameOverReason := none,
        finalWinner := none, finalPlayersBroadcast := none,
        lastRoundWinners := none })

/-- One scheduled `setTimeout(() => startNewRound(roomId), _)` callback
firing (the source schedules these after round resolution, after an empty
countdown, and after a countdown interrupted by a departure). -/
def pendingStartNewRoundFires (g : Game) : Game :=
  if 0 < g.pendingStartNewRound then
    startNewRound { g with pendingStartNewRound := g.pendingStartNewRound - 1 }
  else g

/-- The events that can re-enter the round engine for a room: inbound player
actions, the two interval callbacks, and a scheduled delayed round start.  A
`join` from a socket id already present in the room cannot occur (one
connection is one player and socket ids are unique), so it is a no-op. -/
inductive Event
  | hold (pid : Nat)
  | release (pid : Nat)
  | join (pid pname : Nat)
  | leave (pid : Nat)
  | ctick
  | rtick
  | fire
deriving Repr, DecidableEq

/-- Apply one event to a room; `none` means the room was deleted. -/
def applyEvent (e : Event) (g : Game) : Option Game :=
  match e with
  | Event.hold pid => some (playerHolding g pid)
  | Event.release pid => some (playerReleased g pid)
  | Event.join pid pname =>
    if g.players.any (fun p => p.id = pid) then some g
    else
      match joinRoom (some g) pid pname with
      | Sum.inl _ => some g
      | Sum.inr g' => some g'
  | Event.leave pid => leaveRoom g pid
  | Event.ctick => some (countdownTick g)
  | Event.rtick => some (roundTick g)
  | Event.fire => some (pendingStartNewRoundFires g)

/-- Apply a sequence of events. -/
def applyEvents (es : List Event) (g : Game) : Option Game :=
  match es with
  | [] => some g
  | e :: rest => (applyEvent e g).bind (applyEvents rest)

/-- One step of the room transition system. -/
def GameStep (g g' : Game) : Prop :=
  ∃ e, applyEvent e g = some g'

/-- A freshly created room. -/
def InitialRoom (g : Game) : Prop :=
  ∃ pid pname t r, createRoom pid pname t r = some g

/-- A room state reachable from some freshly created room. -/
def ReachableRoom (g : Game) : Prop :=
  ∃ g₀, InitialRoom g₀ ∧ Relation.ReflTransGen GameStep g₀ g

/-! ## Concrete reachable rooms used as counterexample inputs -/

/-- Applying a sequence of events yields a multi-step execution. -/
theorem reachable_of_applyEvents (es : List Event) (g g' : Game)
    (h : applyEvents es g = some g') :
    Relation.ReflTransGen GameStep g g' := by
  induction es generalizing g with
  | nil =>
    simp only [applyEvents, Option.some.injEq] at h
    exact h ▸ Relation.ReflTransGen.refl
  | cons e rest ih =>
    simp only [applyEvents] at h
    cases he : applyEvent e g with
    | none => rw [he] at h; simp at h
    | some g₁ =>
      rw [he] at h
      exact Relation.ReflTransGen.head ⟨e, he⟩ (ih g₁ h)

/-- A room created with `initialTime = 10`, `maxRounds = 3` by player 0. -/
def room10x3 : Game := (createRoom 0 0 10 3).getD default

/-- A room created with `initialTime = 10`, `maxRounds = 5` by player 0. -/
def room10x5 : Game := (createRoom 0 0 10 5).getD default

/-- Player 1 joins; both hold; the 5-second countdown runs out; both hold one
bidding tick; player 1 releases at 3 s and player 0 at 4 s, so player 0 wins
round 1 (4 tokens-time: `time 10 → 6`); the scheduled round start fires;
both hold into round 2's countdown and bidding; after six bidding ticks
player 0's accrued hold time reaches their budget and they are force-released
and eliminated — with `time` still 6. -/
def c1Trace : List Event :=
  [Event.join 1 1, Event.hold 0, Event.hold 1,
   Event.ctick, Event.ctick, Event.ctick, Event.ctick, Event.ctick,
   Event.rtick, Event.rtick, Event.rtick, Event.release 1,
   Event.rtick, Event.release 0,
   Event.fire,
   Event.hold 0, Event.hold 1,
   Event.ctick, Event.ctick, Event.ctick, Event.ctick, Event.ctick,
   Event.rtick, Event.rtick, Event.rtick, Event.rtick, Event.rtick,
   Event.rtick]

/-- The state reached by `c1Trace`. -/
def c1Bad : Game := (applyEvents c1Trace room10x5).getD default

/-- Player 1 joins and both players hold, arming the 5-second countdown:
phase `preCountdown` with the countdown interval live. -/
def preCountdownTrace : List Event := [Event.join 1 1, Event.hold 0, Event.hold 1]

/-- A reachable room sitting in `preCountdown` with a live countdown timer
and both players holding. -/
def c5Room : Game := (applyEvents preCountdownTrace room10x3).getD default

/-- Like `preCountdownTrace`, continued through the countdown and one bidding
tick: a reachable room in `inRound` with both players holding. -/
def inRoundTrace : List Event :=
  [Event.join 1 1, Event.hold 0, Event.hold 1,
   Event.ctick, Event.ctick, Event.ctick, Event.ctick, Event.ctick,
   Event.rtick]

/-- A reachable room in phase `inRound`, both players holding at 1 s. -/
def c6Room : Game := (applyEvents inRoundTrace room10x3).getD default

/-- Round 1 is played out: player 1 releases at 3 s, player 0 wins at 4 s and
pays 4 seconds (`time 10 → 6`); the room is back in `roundEnded`. -/
def c10Trace : List Event :=
  [Event.join 1 1, Event.hold 0, Event.hold 1,
   Event.ctick, Event.ctick, Event.ctick, Event.ctick, Event.ctick,
   Event.rtick, Event.rtick, Event.rtick, Event.release 1,
   Event.rtick, Event.release 0]

/-- The state reached by `c10Trace`: joinable, with `players[0].time = 6`
even though the room was created with `initialTime = 10`. -/
def c10Room : Game := (applyEvents c10Trace room10x3).getD default

/-- The room after player 2 joins `c10Room`. -/
def c10Joined : Game :=
  match joinRoom (some c10Room) 2 2 with
  | Sum.inl _ => default
  | Sum.inr g' => g'

/-- Round 1 is played to a 1-second tie, scheduling a delayed
`startNewRound`; both players immediately re-hold, starting a fresh countdown
(phase `preCountdown`, countdown interval live); then the stale scheduled
`startNewRound` fires. -/
def c7Trace : List Event :=
  [Event.join 1 1, Event.hold 0, Event.hold 1,
   Event.ctick, Event.ctick, Event.ctick, Event.ctick, Event.ctick,
   Event.rtick, Event.release 0, Event.release 1,
   Event.hold 0, Event.hold 1, Event.fire]

/-- The state reached by `c7Trace`. -/
def c7Bad : Game := (applyEvents c7Trace room10x3).getD default

/-- C7: "In every reachable room state, at most one of the two timer handles
is non-null, and a non-null countdown timer implies the phase is PreCountdown
[...]".  The code violates this: the delayed `startNewRound` scheduled by
`endRoundOnServer` neither checks the current phase nor clears timers, so if
the players re-arm a countdown before it fires, the room ends up in phase
`waiting` with the countdown interval still live. -/
theorem C7_theorem :
    ReachableRoom c7Bad ∧
    c7Bad.preRoundIntervalId = true ∧
    c7Bad.status = Status.waiting ∧
    c7Bad.status ≠ Status.preCountdown := by
  refine ⟨⟨room10x3, ⟨0, 0, 10, 3, by decide⟩,
    reachable_of_applyEvents c7Trace _ _ (by decide)⟩, by decide, by decide,
    by decide⟩

/-- C1 counterexample: a reachable state whose first player is eliminated
(force-released by the bidding tick when their accrued hold time reached
their budget) yet still has `time = 6 > 0`: the claimed invariant
`isEliminated ⇒ timeBudget ≤ 0` is false, and the forced release does not
leave the eliminated player with `time ≤ 0`. -/
theorem C1_counterexample :
    ReachableRoom c1Bad ∧
    (c1Bad.players.headI).isEliminated = true ∧
    (c1Bad.players.headI).time = 6 ∧
    ¬((c1Bad.players.headI).time ≤ 0) := by
  refine ⟨⟨room10x5, ⟨0, 0, 10, 5, by decide⟩,
    reachable_of_applyEvents c1Trace _ _ (by decide)⟩, by decide, by decide,
    by decide⟩

/-- C5 counterexample: in a reachable `preCountdown` state with a live
countdown timer, a holding player's release does *not* cancel the timer (the
final revision lets the countdown continue), contradicting the claim that the
timer is cancelled immediately. -/
theorem C5_counterexample :
    ReachableRoom c5Room ∧
    c5Room.status = Status.preCountdown ∧
    c5Room.preRoundIntervalId = true ∧
    (c5Room.players.headI).isHoldingButton = true ∧
    (playerReleased c5Room 0).preRoundIntervalId = true ∧
    (playerReleased c5Room 0).status = Status.preCountdown := by
  refine ⟨⟨room10x3, ⟨0, 0, 10, 3, by decide⟩,
    reachable_of_applyEvents preCountdownTrace _ _ (by decide)⟩,
    by decide, by decide, by decide, by decide, by decide⟩

/-- C6 counterexample: in a reachable `inRound` state, a holding player's
voluntary release does *not* set `hasOptedOut` (the round even stays live
because the other player still holds), contradicting the claim that a
voluntary release during InRound sets the releasing player's `hasOptedOut`. -/
theorem C6_counterexample :
    ReachableRoom c6Room ∧
    c6Room.status = Status.inRound ∧
    (c6Room.players.headI).isHoldingButton = true ∧
    ((playerReleased c6Room 0).players.headI).isHoldingButton = false ∧
    ((playerReleased c6Room 0).players.headI).hasOptedOut = false ∧
    (playerReleased c6Room 0).status = Status.inRound := by
  refine ⟨⟨room10x3, ⟨0, 0, 10, 3, by decide⟩,
    reachable_of_applyEvents inRoundTrace _ _ (by decide)⟩,
    by decide, by decide, by decide, by decide, by decide⟩

/-- C10 counterexample: the room was created with `initialTime = 10`, but
after its creator wins a 4-second round (`time 10 → 6`), a successful join
copies `players[0].time = 6` — not the `initialTime` the room was created
with — onto the new player. -/
theorem C10_counterexample :
    createRoom 0 0 10 3 = some room10x3 ∧
    ReachableRoom c10Room ∧
    joinRoom (some c10Room) 2 2 = Sum.inr c10Joined ∧
    (c10Joined.players.getLastD default).time = 6 ∧
    ¬((c10Joined.players.getLastD default).time = 10) := by
  refine ⟨by decide, ⟨room10x3, ⟨0, 0, 10, 3, by decide⟩,
    reachable_of_applyEvents c10Trace _ _ (by decide)⟩, by decide, by decide,
    by decide⟩

/-! ## Projection lemmas for the game-flow functions -/

@[simp] theorem updateAllPlayers_players (g : Game) (f : Player → Player) :
    (g.updateAllPlayers f).players = g.players.map f := rfl

@[simp] theorem updateAllPlayers_status (g : Game) (f : Player → Player) :
    (g.updateAllPlayers f).status = g.status := rfl

@[simp] theorem updateAllPlayers_currentRound (g : Game) (f : Player → Player) :
    (g.updateAllPlayers f).currentRound = g.currentRound := rfl

@[simp] theorem updateAllPlayers_preRoundIntervalId (g : Game) (f : Player → Player) :
    (g.updateAllPlayers f).preRoundIntervalId = g.preRoundIntervalId := rfl

@[simp] theorem updateAllPlayers_roundTimerIntervalId (g : Game) (f : Player → Player) :
    (g.updateAllPlayers f).roundTimerIntervalId = g.roundTimerIntervalId := rfl

@[simp] theorem updateAllPlayers_gameOverReason (g : Game) (f : Player → Player) :
    (g.updateAllPlayers f).gameOverReason = g.gameOverReason := rfl

@[simp] theorem updateAllPlayers_lastRoundWinners (g : Game) (f : Player → Player) :
    (g.updateAllPlayers f).lastRoundWinners = g.lastRoundWinners := rfl

@[simp] theorem updPlayer_players (g : Game) (pid : Nat) (f : Player → Player) :
    (g.updPlayer pid f).players =
      g.players.map (fun p => if p.id = pid then f p else p) := rfl

@[simp] theorem updPlayer_status (g : Game) (pid : Nat) (f : Player → Player) :
    (g.updPlayer pid f).status = g.status := rfl

@[simp] theorem updPlayer_preRoundIntervalId (g : Game) (pid : Nat) (f : Player → Player) :
    (g.updPlayer pid f).preRoundIntervalId = g.preRoundIntervalId := rfl

@[simp] theorem updPlayer_preRoundCountdown (g : Game) (pid : Nat) (f : Player → Player) :
    (g.updPlayer pid f).preRoundCountdown = g.preRoundCountdown := rfl

@[simp] theorem updPlayer_roundTimerIntervalId (g : Game) (pid : Nat) (f : Player → Player) :
    (g.updPlayer pid f).roundTimerIntervalId = g.roundTimerIntervalId := rfl

@[simp] theorem gameEnded_status (g : Game) (r : EndReason) :
    (gameEnded g r).status = Status.gameOver := rfl

@[simp] theorem gameEnded_gameOverReason (g : Game) (r : EndReason) :
    (gameEnded g r).gameOverReason = some r := rfl

@[simp] theorem gameEnded_players (g : Game) (r : EndReason) :
    (gameEnded g r).players = g.players := rfl

@[simp] theorem gameEnded_lastRoundWinners (g : Game) (r : EndReason) :
    (gameEnded g r).lastRoundWinners = g.lastRoundWinners := rfl

@[simp] theorem gameEnded_preRoundIntervalId (g : Game) (r : EndReason) :
    (gameEnded g r).preRoundIntervalId = false := rfl

@[simp] theorem gameEnded_roundTimerIntervalId (g : Game) (r : EndReason) :
    (gameEnded g r).roundTimerIntervalId = false := rfl

@[simp] theorem gameEnded_finalPlayersBroadcast (g : Game) (r : EndReason) :
    (gameEnded g r).finalPlayersBroadcast = some g.players := rfl

/-! ## C4: start-next-round behaviour -/

/-- C4: `startNewRound` ends the game (GameOver, sole-survivor or
all-eliminated reason) when at most one non-eliminated player remains after
round 1+; otherwise ends it (rounds-exhausted reason) when `currentRound`
has reached `maxRounds`; otherwise increments `currentRound` by exactly 1,
resets every player's holding/opt-out/hold-duration state and enters
`Waiting`. -/
theorem C4_theorem (g : Game) :
    ((g.players.filter (fun p => !p.isEliminated)).length ≤ 1 ∧
        0 < g.currentRound →
      (startNewRound g).status = Status.gameOver ∧
      (startNewRound g).gameOverReason =
        some (if (g.players.filter (fun p => !p.isEliminated)).length = 1
              then EndReason.soleSurvivor else EndReason.allEliminated)) ∧
    (¬((g.players.filter (fun p => !p.isEliminated)).length ≤ 1 ∧
        0 < g.currentRound) →
      g.maxRounds ≤ g.currentRound →
      (startNewRound g).status = Status.gameOver ∧
      (startNewRound g).gameOverReason = some EndReason.roundsExhausted) ∧
    (¬((g.players.filter (fun p => !p.isEliminated)).length ≤ 1 ∧
        0 < g.currentRound) →
      g.currentRound < g.maxRounds →
      (startNewRound g).currentRound = g.currentRound + 1 ∧
      (startNewRound g).status = Status.waiting ∧
      ∀ p ∈ (startNewRound g).players,
        p.isHoldingButton = false ∧ p.hasOptedOut = false ∧
        p.roundHoldDuration = 0) := by
  refine ⟨fun h => ?_, fun h hmax => ?_, fun h hlt => ?_⟩
  · rw [startNewRound, if_pos h]
    constructor
    · split <;> simp
    · split <;> simp_all
  · rw [startNewRound, if_neg h, if_pos hmax]
    simp
  · rw [startNewRound, if_neg h, if_neg (by omega)]
    refine ⟨by simp, by simp, ?_⟩
    intro p hp
    simp only [updateAllPlayers_players, List.mem_map] at hp
    obtain ⟨q, _, rfl⟩ := hp
    exact ⟨rfl, rfl, rfl⟩

/-- Witness for C4 at a concrete reachable room: `c10Room` has two alive
players and `currentRound = 1 < maxRounds = 3`, so `startNewRound` advances
to round 2 in phase `Waiting`. -/
theorem C4_witness :
    (startNewRound c10Room).currentRound = 2 ∧
    (startNewRound c10Room).status = Status.waiting := by
  have h := (C4_theorem c10Room).2.2 (by decide) (by decide)
  exact ⟨by rw [h.1]; decide, h.2.1⟩

/-! ## C8: departure during an active phase with too few alive players -/

/-- C8: when a leave/disconnect removes a player while the phase is
`PreCountdown` or `InRound` and fewer than 2 non-eliminated players remain,
the game ends immediately with the insufficient-players reason; the remaining
players' records are untouched and no round resolution runs (the
round-winner announcement state is unchanged). -/
theorem C8_theorem (g : Game) (pid : Nat)
    (hne : g.players.filter (fun p => !(p.id = pid : Bool)) ≠ [])
    (hstat : g.status = Status.preCountdown ∨ g.status = Status.inRound)
    (halive : ((g.players.filter (fun p => !(p.id = pid : Bool))).filter
        (fun p => !p.isEliminated)).length < 2) :
    ∃ g', leaveRoom g pid = some g' ∧
      g'.status = Status.gameOver ∧
      g'.gameOverReason = some EndReason.insufficientPlayers ∧
      g'.players = g.players.filter (fun p => !(p.id = pid : Bool)) ∧
      g'.lastRoundWinners = g.lastRoundWinners := by
  rw [leaveRoom]
  have hempty : (g.players.filter (fun p => !(p.id = pid : Bool))).isEmpty = false := by
    cases hf : g.players.filter (fun p => !(p.id = pid : Bool)) with
    | nil => exact absurd hf hne
    | cons a l => simp [List.isEmpty]
  simp only [hempty, Bool.false_eq_true, if_false]
  rw [if_pos ⟨hstat, halive⟩]
  exact ⟨_, rfl, by simp, by simp, by simp, by simp⟩

/-- Witness for C8: removing player 1 from the reachable two-player `inRound`
room `c6Room` leaves one alive player, so the game ends at once with the
insufficient-players reason. -/
theorem C8_witness :
    ∃ g', leaveRoom c6Room 1 = some g' ∧
      g'.status = Status.gameOver ∧
      g'.gameOverReason = some EndReason.insufficientPlayers := by
  obtain ⟨g', h1, h2, h3, -⟩ :=
    C8_theorem c6Room 1 (by decide) (Or.inr (by decide)) (by decide)
  exact ⟨g', h1, h2, h3⟩

/-! ## C2: round resolution -/

/-- Spec side of C2: the members of the round's active snapshot that are
neither opted out nor eliminated. -/
def eligibleOf (active : List Player) : List Player :=
  active.filter (fun p => !p.isEliminated && !p.hasOptedOut)

/-- Spec side of C2: the maximum `roundHoldDuration` over a list of players
(`0` when the list is empty). -/
def maxHoldOf (l : List Player) : Int :=
  (l.map (fun p => p.roundHoldDuration)).foldl max 0

/-- The inner accumulation step of `endRoundOnServer`'s winner scan, without
the eligibility test. -/
def winnersStep (acc : Int × List Player) (p : Player) : Int × List Player :=
  if acc.1 < p.roundHoldDuration then (p.roundHoldDuration, [p])
  else if p.roundHoldDuration = acc.1 then (acc.1, acc.2 ++ [p])
  else acc

theorem roundWinnersCalc_aux (active : List Player) (init : Int × List Player) :
    active.foldl
      (fun (acc : Int × List Player) (p : Player) =>
        if p.isEliminated = false ∧ p.hasOptedOut = false then
          if acc.1 < p.roundHoldDuration then (p.roundHoldDuration, [p])
          else if p.roundHoldDuration = acc.1 then (acc.1, acc.2 ++ [p])
          else acc
        else acc)
      init =
    (active.filter (fun p => !p.isEliminated && !p.hasOptedOut)).foldl
      winnersStep init := by
  induction active generalizing init with
  | nil => rfl
  | cons p l ih =>
    rw [List.foldl_cons, List.filter_cons]
    by_cases h : p.isEliminated = false ∧ p.hasOptedOut = false
    · have hb : (!p.isEliminated && !p.hasOptedOut) = true := by
        simp [h.1, h.2]
      rw [hb, if_pos rfl, List.foldl_cons]
      have hstep :
          (if p.isEliminated = false ∧ p.hasOptedOut = false then
            if init.1 < p.roundHoldDuration then (p.roundHoldDuration, [p])
            else if p.roundHoldDuration = init.1 then (init.1, init.2 ++ [p])
            else init
          else init) = winnersStep init p := by
        rw [if_pos h, winnersStep]
      rw [hstep, ih]
    · have hb : (!p.isEliminated && !p.hasOptedOut) = false := by
        rcases not_and_or.mp h with h' | h' <;> simp_all
      rw [hb]
      simp only [Bool.false_eq_true, if_false]
      rw [if_neg h, ih]

theorem roundWinnersCalc_eq_foldl_eligible (active : List Player) :
    roundWinnersCalc active = (eligibleOf active).foldl winnersStep (0, []) := by
  rw [roundWinnersCalc, eligibleOf, roundWinnersCalc_aux]

theorem le_foldl_max (l : List Int) (m : Int) : m ≤ l.foldl max m := by
  induction l generalizing m with
  | nil => exact le_refl m
  | cons a l ih => exact le_trans (le_max_left m a) (ih (max m a))

theorem foldl_max_attained (l : List Int) (m : Int) :
    l.foldl max m = m ∨ l.foldl max m ∈ l := by
  induction l generalizing m with
  | nil => exact Or.inl rfl
  | cons a l ih =>
    rw [List.foldl_cons]
    rcases le_or_lt a m with h | h
    · rw [max_eq_left h]
      rcases ih m with h' | h'
      · exact Or.inl h'
      · exact Or.inr (List.mem_cons_of_mem a h')
    · rw [max_eq_right (le_of_lt h)]
      rcases ih a with h' | h'
      · refine Or.inr ?_
        rw [h']
        exact List.mem_cons_self a l
      · exact Or.inr (List.mem_cons_of_mem a h')

/-- The winner scan is the max-and-filter computation of the specification:
starting from accumulator `(m, ws)`, the accumulated maximum becomes the
running maximum of the hold durations and the accumulated winner list becomes
exactly the players achieving it (prefixed by `ws` if the maximum never
moved). -/
theorem foldl_winnersStep_spec (l : List Player) (m : Int) (ws : List Player) :
    l.foldl winnersStep (m, ws) =
      ((l.map (fun p => p.roundHoldDuration)).foldl max m,
       (if (l.map (fun p => p.roundHoldDuration)).foldl max m = m then ws
        else []) ++
       l.filter (fun p =>
         p.roundHoldDuration =
           (l.map (fun p => p.roundHoldDuration)).foldl max m)) := by
  induction l generalizing m ws with
  | nil => simp
  | cons p l ih =>
    rw [List.foldl_cons, List.map_cons, List.foldl_cons, List.filter_cons]
    rcases lt_trichotomy m p.roundHoldDuration with h | h | h
    · -- the maximum strictly increases to p's duration
      have hstep : winnersStep (m, ws) p = (p.roundHoldDuration, [p]) := by
        rw [winnersStep]; exact if_pos h
      have hmax : max m p.roundHoldDuration = p.roundHoldDuration :=
        max_eq_right (le_of_lt h)
      rw [hstep, hmax, ih]
      have hM : m < (l.map (fun p => p.roundHoldDuration)).foldl max
          p.roundHoldDuration :=
        lt_of_lt_of_le h (le_foldl_max _ _)
      rw [if_neg (fun hc => absurd hc (ne_of_gt hM))]
      by_cases hd : p.roundHoldDuration =
          (l.map (fun p => p.roundHoldDuration)).foldl max p.roundHoldDuration
      · rw [if_pos hd.symm]
        simp [← hd]
      · rw [if_neg (fun hc => hd hc.symm)]
        simp [hd]
    · -- p's duration ties the current maximum
      have hstep : winnersStep (m, ws) p = (m, ws ++ [p]) := by
        rw [winnersStep, if_neg (by rw [← h]; exact lt_irrefl m),
          if_pos h.symm]
      have hmax : max m p.roundHoldDuration = m :=
        max_eq_left (le_of_eq h.symm)
      rw [hstep, hmax, ih]
      by_cases hM : (l.map (fun p => p.roundHoldDuration)).foldl max m = m
      · rw [if_pos hM, if_pos hM]
        have hd : p.roundHoldDuration =
            (l.map (fun p => p.roundHoldDuration)).foldl max m :=
          h.symm.trans hM.symm
        simp [hd]
      · rw [if_neg hM, if_neg hM]
        have hd : ¬(p.roundHoldDuration =
            (l.map (fun p => p.roundHoldDuration)).foldl max m) :=
          fun hc => hM (by rw [← hc, ← h])
        simp [hd]
    · -- p's duration is below the current maximum
      have hstep : winnersStep (m, ws) p = (m, ws) := by
        rw [winnersStep, if_neg (not_lt_of_gt h), if_neg (ne_of_lt h)]
      have hmax : max m p.roundHoldDuration = m := max_eq_left (le_of_lt h)
      rw [hstep, hmax, ih]
      have hlt : p.roundHoldDuration <
          (l.map (fun p => p.roundHoldDuration)).foldl max m :=
        lt_of_lt_of_le h (le_foldl_max _ _)
      simp [ne_of_lt hlt]

/-- The winner scan equals the specification's max-and-filter computation. -/
theorem roundWinnersCalc_spec (active : List Player) :
    roundWinnersCalc active =
      (maxHoldOf (eligibleOf active),
       (eligibleOf active).filter
         (fun p => p.roundHoldDuration = maxHoldOf (eligibleOf active))) := by
  rw [roundWinnersCalc_eq_foldl_eligible, foldl_winnersStep_spec, maxHoldOf]
  rw [ite_self, List.nil_append]

/-- When the maximal duration is non-zero it is attained, so the winner list
is non-empty. -/
theorem winners_ne_nil_of_max_ne_zero (active : List Player)
    (h : maxHoldOf (eligibleOf active) ≠ 0) :
    (eligibleOf active).filter
      (fun p => p.roundHoldDuration = maxHoldOf (eligibleOf active)) ≠ [] := by
  rcases foldl_max_attained
      ((eligibleOf active).map (fun p => p.roundHoldDuration)) 0 with h0 | hmem
  · exact absurd h0 h
  · obtain ⟨p, hp, hdp⟩ := List.mem_map.mp hmem
    intro hnil
    have hmem2 : p ∈ (eligibleOf active).filter
        (fun p => p.roundHoldDuration = maxHoldOf (eligibleOf active)) := by
      rw [List.mem_filter]
      exact ⟨hp, by rw [maxHoldOf, hdp]; simp⟩
    rw [hnil] at hmem2
    exact absurd hmem2 (List.not_mem_nil p)

/-- C2: when a round is resolved, the announced winner set is exactly the
members of `activePlayersInRound` that are neither opted out nor eliminated
whose `roundHoldDuration` equals the maximum over that restricted set; if
that maximum is 0 (in particular when the restricted set is empty) nobody's
tokens or time change, and otherwise exactly the winners (all members of a
tie) gain one token and pay the maximum duration while everyone else's
tokens and time are unchanged. -/
theorem C2_theorem (g : Game) :
    ((endRoundOnServer g).lastRoundWinners =
      some ((((eligibleOf g.activePlayersInRound).filter
          (fun p => p.roundHoldDuration =
            maxHoldOf (eligibleOf g.activePlayersInRound))).map
            (fun p => p.id)),
        maxHoldOf (eligibleOf g.activePlayersInRound))) ∧
    (maxHoldOf (eligibleOf g.activePlayersInRound) = 0 →
      (endRoundOnServer g).players.map (fun p => (p.id, p.tokens, p.time)) =
        g.players.map (fun p => (p.id, p.tokens, p.time))) ∧
    (maxHoldOf (eligibleOf g.activePlayersInRound) ≠ 0 →
      (endRoundOnServer g).players.map (fun p => (p.id, p.tokens, p.time)) =
        g.players.map (fun p =>
          if (((eligibleOf g.activePlayersInRound).filter
              (fun q => q.roundHoldDuration =
                maxHoldOf (eligibleOf g.activePlayersInRound))).map
              (fun q => q.id)).contains p.id then
            (p.id, p.tokens + 1,
             p.time - maxHoldOf (eligibleOf g.activePlayersInRound))
          else (p.id, p.tokens, p.time))) := by
  have hcalc : roundWinnersCalc
      ({ g with status := Status.roundEnded } : Game).activePlayersInRound =
      (maxHoldOf (eligibleOf g.activePlayersInRound),
       (eligibleOf g.activePlayersInRound).filter
         (fun p => p.roundHoldDuration =
           maxHoldOf (eligibleOf g.activePlayersInRound))) :=
    roundWinnersCalc_spec g.activePlayersInRound
  refine ⟨?_, ?_, ?_⟩
  · simp only [endRoundOnServer, hcalc]
    split <;> rfl
  · intro h0
    simp only [endRoundOnServer, hcalc]
    rw [if_pos (Or.inl h0)]
    simp [List.map_map]
  · intro hne
    simp only [endRoundOnServer, hcalc]
    rw [if_neg ?hc]
    case hc =>
      rintro (hc | hc)
      · exact hne hc
      · exact winners_ne_nil_of_max_ne_zero g.activePlayersInRound hne
          (List.length_eq_zero.mp hc)
    simp only [updateAllPlayers_players, List.map_map]
    apply List.map_congr_left
    intro p _
    by_cases hpw : (((eligibleOf g.activePlayersInRound).filter
        (fun q => q.roundHoldDuration =
          maxHoldOf (eligibleOf g.activePlayersInRound))).map
        (fun q => q.id)).contains p.id = true
    · rw [if_pos hpw]
      simp only [Function.comp_apply, if_pos hpw]
    · rw [if_neg hpw]
      simp only [Function.comp_apply, if_neg hpw]

def playerX : Player :=
  { id := 0, name := 0, time := 60, tokens := 0, isHoldingButton := false,
    hasOptedOut := false, roundHoldDuration := 4, isEliminated := false }

def playerY : Player :=
  { id := 1, name := 1, time := 60, tokens := 0, isHoldingButton := false,
    hasOptedOut := false, roundHoldDuration := 7, isEliminated := false }

def scenarioB : Game :=
  { players := [playerX, playerY], status := Status.inRound,
    currentRound := 1, maxRounds := 3, preRoundCountdown := 0,
    preRoundIntervalId := false, roundElapsedTime := 7,
    roundTimerIntervalId := false,
    activePlayersInRound := [playerX, playerY], pendingStartNewRound := 0,
    gameOverReason := none, finalWinner := none,
    finalPlayersBroadcast := none, lastRoundWinners := none }

/-- Witness for C2, scenario B of the specification: two active players with
hold durations 4 s and 7 s; the 7 s player wins, gains one token and pays
7 seconds, while the 4 s player's tokens and time are untouched. -/
theorem C2_witness :
    (endRoundOnServer scenarioB).players.map
      (fun p => (p.id, p.tokens, p.time)) =
      [(0, 0, 60), (1, 1, 53)] ∧
    (endRoundOnServer scenarioB).lastRoundWinners = some ([1], 7) := by
  have h := C2_theorem scenarioB
  refine ⟨?_, ?_⟩
  · rw [h.2.2 (by decide)]
    decide
  · rw [h.1]
    decide

/-- The `preCountdown`-entering branch of `startPreRoundCountdown`. -/
def armCountdown (g : Game) : Game :=
  let g := { g with status := Status.preCountdown, preRoundCountdown := 5 }
  let g := g.updateAllPlayers
    (fun p => { p with hasOptedOut := false, roundHoldDuration := 0 })
  { g with preRoundIntervalId := true }

@[simp] theorem armCountdown_status (g : Game) :
    (armCountdown g).status = Status.preCountdown := rfl

@[simp] theorem armCountdown_preRoundCountdown (g : Game) :
    (armCountdown g).preRoundCountdown = 5 := rfl

@[simp] theorem armCountdown_preRoundIntervalId (g : Game) :
    (armCountdown g).preRoundIntervalId = true := rfl

@[simp] theorem armCountdown_players (g : Game) :
    (armCountdown g).players =
      g.players.map
        (fun p => { p with hasOptedOut := false, roundHoldDuration := 0 }) := rfl

theorem startPreRoundCountdown_started (g : Game)
    (hstat : ¬(g.status = Status.preCountdown ∨ g.status = Status.inRound))
    (hcond : (if (g.players.filter (fun q => !q.isEliminated)).length = 1
        then (g.players.filter (fun q => !q.isEliminated)).all
          (fun q => q.isHoldingButton)
        else decide (2 ≤ (g.players.filter (fun q => !q.isEliminated)).length) &&
          (g.players.filter (fun q => !q.isEliminated)).all
            (fun q => q.isHoldingButton)) = true) :
    startPreRoundCountdown g = armCountdown g := by
  simp only [startPreRoundCountdown]
  rw [if_neg hstat, if_pos hcond]
  rfl

theorem startPreRoundCountdown_not_started (g : Game)
    (hcond : (if (g.players.filter (fun q => !q.isEliminated)).length = 1
        then (g.players.filter (fun q => !q.isEliminated)).all
          (fun q => q.isHoldingButton)
        else decide (2 ≤ (g.players.filter (fun q => !q.isEliminated)).length) &&
          (g.players.filter (fun q => !q.isEliminated)).all
            (fun q => q.isHoldingButton)) = false) :
    startPreRoundCountdown g = g := by
  simp only [startPreRoundCountdown]
  split
  · rfl
  · rw [if_neg (by rw [hcond]; exact Bool.false_ne_true)]

/-- C3: in phase `Waiting`/`RoundEnded` with no live countdown timer, a hold
action (by a present, non-eliminated player with time left whose holding flag
turns true) starts the 5-second countdown iff the arming condition over
`alive` = non-eliminated players holds: one alive player holding, or two or
more alive players all holding.  When started, `preRoundCountdown = 5`, the
countdown interval is live and every player's `hasOptedOut` and
`roundHoldDuration` are reset.  With zero alive players
`startPreRoundCountdown` never starts a countdown. -/
theorem C3_theorem (g : Game) (pid : Nat) (p : Player)
    (hfind : g.players.find? (fun q => q.id = pid) = some p)
    (hstat : g.status = Status.waiting ∨ g.status = Status.roundEnded)
    (htimer : g.preRoundIntervalId = false)
    (ht : 0 < p.time) (he : p.isEliminated = false)
    (hh : p.isHoldingButton = false) :
    (((playerHolding g pid).status = Status.preCountdown) ↔
      ((((g.updPlayer pid (fun q => { q with isHoldingButton := true })).players.filter
          (fun q => !q.isEliminated)).length = 1 ∧
        ((g.updPlayer pid (fun q => { q with isHoldingButton := true })).players.filter
          (fun q => !q.isEliminated)).all (fun q => q.isHoldingButton) = true) ∨
       (2 ≤ ((g.updPlayer pid (fun q => { q with isHoldingButton := true })).players.filter
          (fun q => !q.isEliminated)).length ∧
        ((g.updPlayer pid (fun q => { q with isHoldingButton := true })).players.filter
          (fun q => !q.isEliminated)).all (fun q => q.isHoldingButton) = true))) ∧
    ((playerHolding g pid).status = Status.preCountdown →
      (playerHolding g pid).preRoundCountdown = 5 ∧
      (playerHolding g pid).preRoundIntervalId = true ∧
      ∀ q ∈ (playerHolding g pid).players,
        q.hasOptedOut = false ∧ q.roundHoldDuration = 0) ∧
    (∀ h : Game, h.players.filter (fun q => !q.isEliminated) = [] →
      startPreRoundCountdown h = h) := by
  have hne1 : ¬(p.time ≤ 0 ∨ p.isEliminated = true) := by
    rintro (hc | hc)
    · omega
    · rw [he] at hc; exact Bool.false_ne_true hc
  have hne2 : ¬(p.isHoldingButton = true) := by
    rw [hh]; exact Bool.false_ne_true
  have hGstat : (g.updPlayer pid
      (fun q => { q with isHoldingButton := true })).status = g.status := rfl
  have hGpre : (g.updPlayer pid
      (fun q => { q with isHoldingButton := true })).preRoundIntervalId = false := by
    rw [updPlayer_preRoundIntervalId]; exact htimer
  have hstat2 : ¬((g.updPlayer pid
      (fun q => { q with isHoldingButton := true })).status = Status.preCountdown ∨
      (g.updPlayer pid
      (fun q => { q with isHoldingButton := true })).status = Status.inRound) := by
    rw [hGstat]
    rcases hstat with h | h <;> rw [h] <;> rintro (hc | hc) <;> exact Status.noConfusion hc
  -- reduce the hold handler to a single conditional
  have hred : playerHolding g pid =
      (if (if ((g.updPlayer pid (fun q => { q with isHoldingButton := true })).players.filter
            (fun q => !q.isEliminated)).length = 1
          then ((g.updPlayer pid (fun q => { q with isHoldingButton := true })).players.filter
            (fun q => !q.isEliminated)).all (fun q => q.isHoldingButton)
          else decide (2 ≤ ((g.updPlayer pid (fun q => { q with isHoldingButton := true })).players.filter
            (fun q => !q.isEliminated)).length) &&
            ((g.updPlayer pid (fun q => { q with isHoldingButton := true })).players.filter
              (fun q => !q.isEliminated)).all (fun q => q.isHoldingButton)) = true
       then armCountdown (g.updPlayer pid (fun q => { q with isHoldingButton := true }))
       else g.updPlayer pid (fun q => { q with isHoldingButton := true })) := by
    simp only [playerHolding, hfind]
    rw [if_neg hne1, if_neg hne2, if_pos (hGstat ▸ hstat)]
    by_cases hlen : ((g.updPlayer pid (fun q => { q with isHoldingButton := true })).players.filter
        (fun q => !q.isEliminated)).length = 1
    · rw [if_pos hlen, if_pos hlen]
      by_cases hall : ((g.updPlayer pid (fun q => { q with isHoldingButton := true })).players.filter
          (fun q => !q.isEliminated)).all (fun q => q.isHoldingButton) = true
      · rw [if_pos ⟨hall, hGpre⟩, if_pos hall]
        exact startPreRoundCountdown_started _ hstat2 (by rw [if_pos hlen]; exact hall)
      · rw [if_neg (fun hc => hall hc.1),
          if_neg (fun hc => hall hc)]
    · rw [if_neg hlen, if_neg hlen]
      by_cases h2 : 2 ≤ ((g.updPlayer pid (fun q => { q with isHoldingButton := true })).players.filter
          (fun q => !q.isEliminated)).length
      · by_cases hall : ((g.updPlayer pid (fun q => { q with isHoldingButton := true })).players.filter
            (fun q => !q.isEliminated)).all (fun q => q.isHoldingButton) = true
        · rw [if_pos ⟨h2, hall, hGpre⟩,
            if_pos (by rw [decide_eq_true h2, hall]; rfl)]
          exact startPreRoundCountdown_started _ hstat2
            (by rw [if_neg hlen, decide_eq_true h2, hall]; rfl)
        · rw [if_neg (fun hc => hall hc.2.1),
            if_neg (fun hc => hall (Bool.and_eq_true_iff.mp hc).2)]
      · rw [if_neg (fun hc => h2 hc.1),
            if_neg (fun hc =>
              h2 (of_decide_eq_true (Bool.and_eq_true_iff.mp hc).1))]
  refine ⟨?_, ?_, ?_⟩
  · rw [hred]
    by_cases hcond : (if ((g.updPlayer pid (fun q => { q with isHoldingButton := true })).players.filter
          (fun q => !q.isEliminated)).length = 1
        then ((g.updPlayer pid (fun q => { q with isHoldingButton := true })).players.filter
          (fun q => !q.isEliminated)).all (fun q => q.isHoldingButton)
        else decide (2 ≤ ((g.updPlayer pid (fun q => { q with isHoldingButton := true })).players.filter
          (fun q => !q.isEliminated)).length) &&
          ((g.updPlayer pid (fun q => { q with isHoldingButton := true })).players.filter
            (fun q => !q.isEliminated)).all (fun q => q.isHoldingButton)) = true
    · rw [if_pos hcond, armCountdown_status]
      constructor
      · intro _
        by_cases hlen : ((g.updPlayer pid (fun q => { q with isHoldingButton := true })).players.filter
            (fun q => !q.isEliminated)).length = 1
        · rw [if_pos hlen] at hcond
          exact Or.inl ⟨hlen, hcond⟩
        · rw [if_neg hlen] at hcond
          rcases Bool.and_eq_true_iff.mp hcond with ⟨h2, hall⟩
          exact Or.inr ⟨of_decide_eq_true h2, hall⟩
      · intro _; rfl
    · rw [if_neg hcond]
      constructor
      · intro hc
        rw [hGstat] at hc
        rcases hstat with h | h <;> rw [h] at hc <;> exact absurd hc (by decide)
      · intro hc
        exfalso
        apply hcond
        by_cases hlen : ((g.updPlayer pid (fun q => { q with isHoldingButton := true })).players.filter
            (fun q => !q.isEliminated)).length = 1
        · rw [if_pos hlen]
          rcases hc with ⟨_, hall⟩ | ⟨h2, hall⟩
          · exact hall
          · exact hall
        · rw [if_neg hlen]
          rcases hc with ⟨h1, _⟩ | ⟨h2, hall⟩
          · exact absurd h1 hlen
          · rw [decide_eq_true h2, hall]; rfl
  · intro hsc
    rw [hred] at hsc ⊢
    by_cases hcond : (if ((g.updPlayer pid (fun q => { q with isHoldingButton := true })).players.filter
          (fun q => !q.isEliminated)).length = 1
        then ((g.updPlayer pid (fun q => { q with isHoldingButton := true })).players.filter
          (fun q => !q.isEliminated)).all (fun q => q.isHoldingButton)
        else decide (2 ≤ ((g.updPlayer pid (fun q => { q with isHoldingButton := true })).players.filter
          (fun q => !q.isEliminated)).length) &&
          ((g.updPlayer pid (fun q => { q with isHoldingButton := true })).players.filter
            (fun q => !q.isEliminated)).all (fun q => q.isHoldingButton)) = true
    · rw [if_pos hcond]
      refine ⟨rfl, rfl, ?_⟩
      intro q hq
      rw [armCountdown_players] at hq
      obtain ⟨q', _, rfl⟩ := List.mem_map.mp hq
      exact ⟨rfl, rfl⟩
    · rw [if_neg hcond] at hsc
      rw [hGstat] at hsc
      rcases hstat with h | h <;> rw [h] at hsc <;> exact absurd hsc (by decide)
  · intro h hempty
    apply startPreRoundCountdown_not_started
    rw [hempty]
    simp

/-- A reachable room in phase `waiting` where player 0 holds and player 1
does not yet. -/
def c3Room : Game :=
  (applyEvents [Event.join 1 1, Event.hold 0] room10x3).getD default

/-- Witness for C3: in `c3Room` (two players, one already holding) the other
player's hold arms the countdown. -/
theorem C3_witness :
    (playerHolding c3Room 1).status = Status.preCountdown ∧
    (playerHolding c3Room 1).preRoundCountdown = 5 ∧
    (playerHolding c3Room 1).preRoundIntervalId = true := by
  have h := C3_theorem c3Room 1
    { id := 1, name := 1, time := 10, tokens := 0, isHoldingButton := false,
      hasOptedOut := false, roundHoldDuration := 0, isEliminated := false }
    (by decide) (by decide) (by decide) (by decide) (by decide) (by decide)
  have hs : (playerHolding c3Room 1).status = Status.preCountdown :=
    h.1.mpr (by decide)
  obtain ⟨h5, hpre, -⟩ := h.2.1 hs
  exact ⟨hs, h5, hpre⟩

/-- C5 (amended): in phase `PreCountdown` with a live countdown timer, a
currently-holding player's release sets that player's `isHoldingButton` to
false and `hasOptedOut` to true, and the countdown is *not* cancelled: the
timer handle, the phase and the countdown value are all unchanged, and no
remaining-holder re-evaluation happens. -/
theorem C5_theorem (g : Game) (pid : Nat) (p : Player)
    (hfind : g.players.find? (fun q => q.id = pid) = some p)
    (hh : p.isHoldingButton = true)
    (hstat : g.status = Status.preCountdown)
    (htimer : g.preRoundIntervalId = true) :
    playerReleased g pid =
      (g.updPlayer pid (fun q => { q with isHoldingButton := false })).updPlayer
        pid (fun q => { q with hasOptedOut := true }) ∧
    (playerReleased g pid).preRoundIntervalId = true ∧
    (playerReleased g pid).status = Status.preCountdown ∧
    (playerReleased g pid).preRoundCountdown = g.preRoundCountdown := by
  have hred : playerReleased g pid =
      (g.updPlayer pid (fun q => { q with isHoldingButton := false })).updPlayer
        pid (fun q => { q with hasOptedOut := true }) := by
    simp only [playerReleased, hfind]
    rw [if_pos hh, if_pos ⟨by rw [updPlayer_status]; exact hstat,
      by rw [updPlayer_preRoundIntervalId]; exact htimer⟩]
  refine ⟨hred, ?_, ?_, ?_⟩ <;> rw [hred] <;>
    simp only [updPlayer_preRoundIntervalId, updPlayer_status,
      updPlayer_preRoundCountdown]
  · exact htimer
  · exact hstat

/-- Witness for C5 at the reachable `preCountdown` room `c5Room`. -/
theorem C5_witness :
    (playerReleased c5Room 0).preRoundIntervalId = true ∧
    (playerReleased c5Room 0).status = Status.preCountdown ∧
    (playerReleased c5Room 0).preRoundCountdown = 5 := by
  have h := C5_theorem c5Room 0
    { id := 0, name := 0, time := 10, tokens := 0, isHoldingButton := true,
      hasOptedOut := false, roundHoldDuration := 0, isEliminated := false }
    (by decide) (by decide) (by decide) (by decide)
  exact ⟨h.2.1, h.2.2.1, by rw [h.2.2.2]; decide⟩

/-! ## C9: final ranking at game over -/

theorem lexGe_iff (a b : Player) :
    lexGe a b = true ↔
      (b.tokens < a.tokens ∨ (a.tokens = b.tokens ∧ b.time ≤ a.time)) := by
  rw [lexGe]
  simp [Bool.or_eq_true, Bool.and_eq_true]

theorem lexGe_refl (a : Player) : lexGe a a = true := by
  rw [lexGe_iff]; omega

theorem lexGe_total (a b : Player) : lexGe a b = true ∨ lexGe b a = true := by
  rw [lexGe_iff, lexGe_iff]; omega

theorem lexGe_trans {a b c : Player} (h1 : lexGe a b = true)
    (h2 : lexGe b c = true) : lexGe a c = true := by
  rw [lexGe_iff] at h1 h2 ⊢; omega

theorem insertLex_perm (p : Player) (l : List Player) :
    (insertLex p l).Perm (p :: l) := by
  induction l with
  | nil => exact List.Perm.refl _
  | cons q rest ih =>
    rw [insertLex]
    split
    · exact List.Perm.refl _
    · exact (List.Perm.cons q ih).trans (List.Perm.swap p q rest)

theorem sortLexPlayers_perm (l : List Player) : (sortLexPlayers l).Perm l := by
  induction l with
  | nil => exact List.Perm.refl _
  | cons p rest ih =>
    exact (insertLex_perm p (sortLexPlayers rest)).trans (List.Perm.cons p ih)

/-- The head of the sorted list is a maximum of the list under the
tokens-then-time descending order. -/
theorem sortLexPlayers_head_max (l : List Player) (hl : l ≠ []) :
    ∃ hd tl, sortLexPlayers l = hd :: tl ∧ hd ∈ l ∧
      ∀ x ∈ l, lexGe hd x = true := by
  induction l with
  | nil => exact absurd rfl hl
  | cons p rest ih =>
    cases hrest : rest with
    | nil =>
      refine ⟨p, [], ?_, List.mem_singleton_self p, ?_⟩
      · rfl
      · intro x hx
        rw [List.mem_singleton.mp hx]
        exact lexGe_refl p
    | cons q rest' =>
      obtain ⟨hd, tl, heq, hmem, hmax⟩ := ih (by rw [hrest]; exact List.cons_ne_nil q rest')
      rw [← hrest] at *
      have hsort : sortLexPlayers (p :: rest) = insertLex p (sortLexPlayers rest) := rfl
      rw [hsort, heq, insertLex]
      by_cases hge : lexGe p hd = true
      · rw [if_pos hge]
        refine ⟨p, hd :: tl, rfl, List.mem_cons_self p rest, ?_⟩
        intro x hx
        rcases List.mem_cons.mp hx with rfl | hx
        · exact lexGe_refl x
        · exact lexGe_trans hge (hmax x hx)
      · rw [if_neg hge]
        refine ⟨hd, insertLex p tl, rfl, List.mem_cons_of_mem p hmem, ?_⟩
        intro x hx
        rcases List.mem_cons.mp hx with rfl | hx
        · rcases lexGe_total x hd with h | h
          · exact absurd h hge
          · exact h
        · exact hmax x hx

/-- The top-ranked player of a list under tokens-then-time descending order
(the `sortedPlayers[0]` of `gameEnded`). -/
def topRanked (l : List Player) : Player := (sortLexPlayers l).headI

theorem gameEnded_finalWinner (g : Game) (r : EndReason) :
    (gameEnded g r).finalWinner =
      some (if (g.players.filter (fun p => !p.isEliminated)).isEmpty then
        FinalWinner.mk false []
      else if 1 <
          ((sortLexPlayers (g.players.filter (fun p => !p.isEliminated))).filter
            (fun p =>
              p.tokens = (topRanked (g.players.filter (fun p => !p.isEliminated))).tokens &&
              p.time = (topRanked (g.players.filter (fun p => !p.isEliminated))).time)).length
        then
        FinalWinner.mk true
          (((sortLexPlayers (g.players.filter (fun p => !p.isEliminated))).filter
            (fun p =>
              p.tokens = (topRanked (g.players.filter (fun p => !p.isEliminated))).tokens &&
              p.time = (topRanked (g.players.filter (fun p => !p.isEliminated))).time)).map
            (fun p => p.id))
      else
        FinalWinner.mk false
          [(topRanked (g.players.filter (fun p => !p.isEliminated))).id]) := rfl

/-- C9: when the game ends (for any reason) with at least one non-eliminated
player, the final ranking is over the non-eliminated players by tokens
descending then time descending: the top-ranked player is maximal under that
order; the reported winner-id set is exactly the non-eliminated players whose
tokens and time both equal the top-ranked player's; it is reported as a tie
iff at least two such players exist; and the game-over broadcast carries the
final standings of *all* players, eliminated ones included. -/
theorem C9_theorem (g : Game) (r : EndReason)
    (halive : g.players.filter (fun p => !p.isEliminated) ≠ []) :
    (gameEnded g r).finalPlayersBroadcast = some g.players ∧
    ∃ fw, (gameEnded g r).finalWinner = some fw ∧
      topRanked (g.players.filter (fun p => !p.isEliminated)) ∈
        g.players.filter (fun p => !p.isEliminated) ∧
      (∀ q ∈ g.players.filter (fun p => !p.isEliminated),
        lexGe (topRanked (g.players.filter (fun p => !p.isEliminated))) q = true) ∧
      (∀ i, i ∈ fw.winnerIds ↔
        ∃ q ∈ g.players.filter (fun p => !p.isEliminated),
          q.id = i ∧
          q.tokens = (topRanked (g.players.filter (fun p => !p.isEliminated))).tokens ∧
          q.time = (topRanked (g.players.filter (fun p => !p.isEliminated))).time) ∧
      (fw.isTie = true ↔
        2 ≤ ((g.players.filter (fun p => !p.isEliminated)).filter
          (fun q =>
            q.tokens = (topRanked (g.players.filter (fun p => !p.isEliminated))).tokens &&
            q.time = (topRanked (g.players.filter (fun p => !p.isEliminated))).time)).length) := by
  obtain ⟨hd, tl, heq, hmem, hmax⟩ :=
    sortLexPlayers_head_max (g.players.filter (fun p => !p.isEliminated)) halive
  have htop : topRanked (g.players.filter (fun p => !p.isEliminated)) = hd := by
    rw [topRanked, heq]; rfl
  have hempty : (g.players.filter (fun p => !p.isEliminated)).isEmpty = false := by
    cases hA : g.players.filter (fun p => !p.isEliminated) with
    | nil => exact absurd hA halive
    | cons a l => rfl
  have hperm := sortLexPlayers_perm (g.players.filter (fun p => !p.isEliminated))
  have hfilterperm := hperm.filter
    (fun q =>
      q.tokens = (topRanked (g.players.filter (fun p => !p.isEliminated))).tokens &&
      q.time = (topRanked (g.players.filter (fun p => !p.isEliminated))).time)
  have hlencw : ((sortLexPlayers (g.players.filter (fun p => !p.isEliminated))).filter
        (fun q =>
          q.tokens = (topRanked (g.players.filter (fun p => !p.isEliminated))).tokens &&
          q.time = (topRanked (g.players.filter (fun p => !p.isEliminated))).time)).length =
      ((g.players.filter (fun p => !p.isEliminated)).filter
        (fun q =>
          q.tokens = (topRanked (g.players.filter (fun p => !p.isEliminated))).tokens &&
          q.time = (topRanked (g.players.filter (fun p => !p.isEliminated))).time)).length :=
    hfilterperm.length_eq
  have hhdcw : hd ∈ (sortLexPlayers (g.players.filter (fun p => !p.isEliminated))).filter
      (fun q =>
        q.tokens = (topRanked (g.players.filter (fun p => !p.isEliminated))).tokens &&
        q.time = (topRanked (g.players.filter (fun p => !p.isEliminated))).time) := by
    rw [List.mem_filter, htop]
    exact ⟨by rw [heq]; exact List.mem_cons_self hd tl, by simp⟩
  rw [gameEnded_finalWinner, hempty]
  refine ⟨gameEnded_finalPlayersBroadcast g r, ?_⟩
  simp only [Bool.false_eq_true, if_false]
  by_cases hlen : 1 <
      ((sortLexPlayers (g.players.filter (fun p => !p.isEliminated))).filter
        (fun q =>
          q.tokens = (topRanked (g.players.filter (fun p => !p.isEliminated))).tokens &&
          q.time = (topRanked (g.players.filter (fun p => !p.isEliminated))).time)).length
  · rw [if_pos hlen]
    refine ⟨_, rfl, htop ▸ hmem, htop ▸ hmax, ?_, ?_⟩
    · intro i
      constructor
      · intro hi
        obtain ⟨q, hq, rfl⟩ := List.mem_map.mp hi
        obtain ⟨hqs, hqv⟩ := List.mem_filter.mp hq
        rcases Bool.and_eq_true_iff.mp hqv with ⟨h1, h2⟩
        exact ⟨q, hperm.mem_iff.mp hqs, rfl,
          of_decide_eq_true h1, of_decide_eq_true h2⟩
      · rintro ⟨q, hqA, rfl, hqt, hqs⟩
        refine List.mem_map.mpr ⟨q, List.mem_filter.mpr ⟨hperm.mem_iff.mpr hqA, ?_⟩, rfl⟩
        rw [Bool.and_eq_true_iff]
        exact ⟨decide_eq_true hqt, decide_eq_true hqs⟩
    · rw [← hlencw]
      constructor
      · intro _; omega
      · intro _; rfl
  · rw [if_neg hlen]
    have hone : ((sortLexPlayers (g.players.filter (fun p => !p.isEliminated))).filter
        (fun q =>
          q.tokens = (topRanked (g.players.filter (fun p => !p.isEliminated))).tokens &&
          q.time = (topRanked (g.players.filter (fun p => !p.isEliminated))).time)).length = 1 := by
      have hpos : 0 < ((sortLexPlayers (g.players.filter (fun p => !p.isEliminated))).filter
          (fun q =>
            q.tokens = (topRanked (g.players.filter (fun p => !p.isEliminated))).tokens &&
            q.time = (topRanked (g.players.filter (fun p => !p.isEliminated))).time)).length :=
        List.length_pos.mpr (List.ne_nil_of_mem hhdcw)
      omega
    obtain ⟨a, ha⟩ := List.length_eq_one.mp hone
    have hahd : a = hd := by
      have := hhdcw
      rw [ha] at this
      exact (List.mem_singleton.mp this).symm
    refine ⟨_, rfl, htop ▸ hmem, htop ▸ hmax, ?_, ?_⟩
    · intro i
      constructor
      · intro hi
        rw [List.mem_singleton] at hi
        refine ⟨hd, hmem, by rw [hi, htop], by rw [htop], by rw [htop]⟩
      · rintro ⟨q, hqA, rfl, hqt, hqs⟩
        have hqcw : q ∈ (sortLexPlayers (g.players.filter (fun p => !p.isEliminated))).filter
            (fun q =>
              q.tokens = (topRanked (g.players.filter (fun p => !p.isEliminated))).tokens &&
              q.time = (topRanked (g.players.filter (fun p => !p.isEliminated))).time) := by
          refine List.mem_filter.mpr ⟨hperm.mem_iff.mpr hqA, ?_⟩
          rw [Bool.and_eq_true_iff]
          exact ⟨decide_eq_true hqt, decide_eq_true hqs⟩
        rw [ha] at hqcw
        rw [List.mem_singleton.mp hqcw, hahd, htop]
        exact List.mem_singleton_self _
    · rw [← hlencw, hone]
      constructor
      · intro hc; exact absurd hc Bool.false_ne_true
      · intro hc; omega

/-- Player 0's record in `c10Room` (the winner of the played round). -/
def c10TopPlayer : Player :=
  { id := 0, name := 0, time := 6, tokens := 1, isHoldingButton := false,
    hasOptedOut := false, roundHoldDuration := 4, isEliminated := false }

/-- Witness for C9 at the reachable room `c10Room` (player 0 has 1 token,
player 1 none): the single final winner is player 0 and the broadcast lists
both players. -/
theorem C9_witness :
    ∃ fw, (gameEnded c10Room EndReason.roundsExhausted).finalWinner = some fw ∧
      0 ∈ fw.winnerIds ∧ fw.isTie = false ∧
      (gameEnded c10Room EndReason.roundsExhausted).finalPlayersBroadcast =
        some c10Room.players := by
  obtain ⟨hb, fw, hfw, -, -, hids, htie⟩ :=
    C9_theorem c10Room EndReason.roundsExhausted (by decide)
  refine ⟨fw, hfw, ?_, ?_, hb⟩
  · exact (hids 0).mpr ⟨c10TopPlayer, by decide, by decide, by decide, by decide⟩
  · cases hft : fw.isTie with
    | false => rfl
    | true =>
      have h2 := htie.mp hft
      revert h2
      decide

/-! ## C10: join-room validation -/

/-- C10 (amended): a join-room request succeeds iff the room exists, its
phase is `Waiting`, `RoundEnded` or `GameOver`, it has fewer than 4 players
and the requested name is unused (case-sensitive); a failure returns only a
rejection and leaves the room untouched; on success exactly one player record
is appended, with zero tokens, all flags false, zero hold duration, and a
`time` copied from the *current* `players[0].time` (not the `initialTime` the
room was created with). -/
theorem C10_theorem (og : Option Game) (pid pname : Nat) :
    ((∃ g', joinRoom og pid pname = Sum.inr g') ↔
      (∃ g, og = some g ∧
        (g.status = Status.waiting ∨ g.status = Status.roundEnded ∨
         g.status = Status.gameOver) ∧
        g.players.length < 4 ∧
        ∀ q ∈ g.players, q.name ≠ pname)) ∧
    (∀ g g', og = some g → joinRoom og pid pname = Sum.inr g' →
      g' = { g with players := g.players ++
        [{ id := pid, name := pname, time := g.players.headI.time, tokens := 0,
           isHoldingButton := false, hasOptedOut := false,
           roundHoldDuration := 0, isEliminated := false }] }) := by
  cases og with
  | none =>
    constructor
    · constructor
      · rintro ⟨g', hg'⟩
        rw [joinRoom] at hg'
        exact absurd hg' (by simp)
      · rintro ⟨g, hg, -⟩
        exact absurd hg (by simp)
    · intro g g' hg
      exact absurd hg (by simp)
  | some g =>
    by_cases hstat : g.status = Status.waiting ∨ g.status = Status.roundEnded ∨
        g.status = Status.gameOver
    · by_cases hfull : 4 ≤ g.players.length
      · constructor
        · constructor
          · rintro ⟨g', hg'⟩
            rw [joinRoom, if_neg (fun hc => hc hstat), if_pos hfull] at hg'
            exact absurd hg' (by simp)
          · rintro ⟨g₀, hg₀, -, hlen, -⟩
            rw [Option.some.injEq] at hg₀
            subst hg₀
            omega
        · intro g₀ g' hg₀ hjoin
          rw [Option.some.injEq] at hg₀
          subst hg₀
          rw [joinRoom, if_neg (fun hc => hc hstat), if_pos hfull] at hjoin
          exact absurd hjoin (by simp)
      · by_cases hname : g.players.any (fun q => q.name = pname) = true
        · constructor
          · constructor
            · rintro ⟨g', hg'⟩
              rw [joinRoom, if_neg (fun hc => hc hstat), if_neg hfull,
                if_pos hname] at hg'
              exact absurd hg' (by simp)
            · rintro ⟨g₀, hg₀, -, -, hfree⟩
              rw [Option.some.injEq] at hg₀
              subst hg₀
              obtain ⟨q, hq, hqn⟩ := List.any_eq_true.mp hname
              exact absurd (of_decide_eq_true hqn) (hfree q hq)
          · intro g₀ g' hg₀ hjoin
            rw [Option.some.injEq] at hg₀
            subst hg₀
            rw [joinRoom, if_neg (fun hc => hc hstat), if_neg hfull,
              if_pos hname] at hjoin
            exact absurd hjoin (by simp)
        · have hjoin : joinRoom (some g) pid pname =
              Sum.inr { g with players := g.players ++
                [{ id := pid, name := pname, time := g.players.headI.time,
                   tokens := 0, isHoldingButton := false, hasOptedOut := false,
                   roundHoldDuration := 0, isEliminated := false }] } := by
            rw [joinRoom, if_neg (fun hc => hc hstat), if_neg hfull,
              if_neg hname]
          constructor
          · constructor
            · intro _
              refine ⟨g, rfl, hstat, by omega, ?_⟩
              intro q hq hqn
              exact hname (List.any_eq_true.mpr ⟨q, hq, decide_eq_true hqn⟩)
            · intro _
              exact ⟨_, hjoin⟩
          · intro g₀ g' hg₀ hj
            rw [Option.some.injEq] at hg₀
            subst hg₀
            rw [hjoin] at hj
            exact (Sum.inr.injEq _ _ ▸ hj).symm
    · constructor
      · constructor
        · rintro ⟨g', hg'⟩
          rw [joinRoom, if_pos (fun hc => hstat hc)] at hg'
          exact absurd hg' (by simp)
        · rintro ⟨g₀, hg₀, hs, -⟩
          rw [Option.some.injEq] at hg₀
          subst hg₀
          exact (hstat hs).elim
      · intro g₀ g' hg₀ hjoin
        rw [Option.some.injEq] at hg₀
        subst hg₀
        rw [joinRoom, if_pos (fun hc => hstat hc)] at hjoin
        exact absurd hjoin (by simp)

/-- Witness for C10 at the reachable room `c10Room`: the join of player 2
appends exactly one record carrying `players[0].time`. -/
theorem C10_theorem_witness :
    c10Joined = { c10Room with players := c10Room.players ++
      [{ id := 2, name := 2, time := c10Room.players.headI.time, tokens := 0,
         isHoldingButton := false, hasOptedOut := false,
         roundHoldDuration := 0, isEliminated := false }] } := by
  exact (C10_theorem (some c10Room) 2 2).2 c10Room c10Joined rfl (by decide)

/-! ## C1: elimination invariants -/

/-- Per-player part of the claimed invariant: a holding player has time left,
and an eliminated player is not holding. -/
def PlayerOk (p : Player) : Prop :=
  (p.isHoldingButton = true → 0 < p.time) ∧
  (p.isEliminated = true → p.isHoldingButton = false)

/-- The room-level invariant of claim C1 (as amended). -/
def PlayersInv (g : Game) : Prop := ∀ p ∈ g.players, PlayerOk p

/-- Socket ids are unique within a room. -/
def NodupIds (g : Game) : Prop := (g.players.map (fun p => p.id)).Nodup

/-- The inductive invariant carried through every event. -/
def ModelInv (g : Game) : Prop := NodupIds g ∧ PlayersInv g

/-- Every player of `l'` descends from a player of `l` with the same id whose
elimination (if any) is preserved. -/
def BackTrack (l l' : List Player) : Prop :=
  ∀ p' ∈ l', ∃ p ∈ l, p.id = p'.id ∧
    (p.isEliminated = true → p'.isEliminated = true)

theorem backTrack_refl (l : List Player) : BackTrack l l :=
  fun p' hp' => ⟨p', hp', rfl, id⟩

theorem backTrack_trans {l₁ l₂ l₃ : List Player} (h12 : BackTrack l₁ l₂)
    (h23 : BackTrack l₂ l₃) : BackTrack l₁ l₃ := by
  intro p₃ h₃
  obtain ⟨p₂, h₂, hid2, hel2⟩ := h23 p₃ h₃
  obtain ⟨p₁, h₁, hid1, hel1⟩ := h12 p₂ h₂
  exact ⟨p₁, h₁, hid1.trans hid2, fun h => hel2 (hel1 h)⟩

theorem backTrack_map {l : List Player} {F : Player → Player}
    (hid : ∀ p, (F p).id = p.id)
    (hel : ∀ p, p.isEliminated = true → (F p).isEliminated = true) :
    BackTrack l (l.map F) := by
  intro p' hp'
  obtain ⟨p, hp, rfl⟩ := List.mem_map.mp hp'
  exact ⟨p, hp, (hid p).symm, hel p⟩

theorem backTrack_filter (l : List Player) (pred : Player → Bool) :
    BackTrack l (l.filter pred) :=
  fun p' hp' => ⟨p', (List.mem_filter.mp hp').1, rfl, id⟩

theorem backTrack_of_players_eq {l l' : List Player} (h : l' = l) :
    BackTrack l l' := h ▸ backTrack_refl l

theorem ids_map_eq {l : List Player} {F : Player → Player}
    (hF : ∀ p, (F p).id = p.id) :
    (l.map F).map (fun p => p.id) = l.map (fun p => p.id) := by
  rw [List.map_map]
  exact List.map_congr_left (fun p _ => hF p)

theorem nodup_ids_map {l : List Player} {F : Player → Player}
    (hF : ∀ p, (F p).id = p.id)
    (h : (l.map (fun p => p.id)).Nodup) :
    ((l.map F).map (fun p => p.id)).Nodup := by
  rwa [ids_map_eq hF]

theorem nodup_ids_filter {l : List Player} (pred : Player → Bool)
    (h : (l.map (fun p => p.id)).Nodup) :
    ((l.filter pred).map (fun p => p.id)).Nodup :=
  ((List.filter_sublist l).map (fun p => p.id)).nodup h

/-- With unique ids, two members sharing an id are the same record. -/
theorem eq_of_mem_of_nodup_ids {l : List Player}
    (h : (l.map (fun p => p.id)).Nodup) {p q : Player}
    (hp : p ∈ l) (hq : q ∈ l) (hid : p.id = q.id) : p = q :=
  List.inj_on_of_nodup_map h hp hq hid

/-- Monotone elimination between two player lists. -/
def ElimMono (l l' : List Player) : Prop :=
  ∀ p ∈ l, ∀ p' ∈ l', p.id = p'.id →
    p.isEliminated = true → p'.isEliminated = true

theorem elimMono_of_backTrack {l l' : List Player}
    (hnd : (l.map (fun p => p.id)).Nodup) (hb : BackTrack l l') :
    ElimMono l l' := by
  intro p hp p' hp' hid hel
  obtain ⟨q, hq, hqid, hqel⟩ := hb p' hp'
  have : q = p := eq_of_mem_of_nodup_ids hnd hq hp (hqid.trans hid.symm)
  exact hqel (this ▸ hel)

/-- The per-player transformation of `handlePreRoundEnd`. -/
def fPre : Player → Player := fun p =>
  if p.time ≤ 0 ∧ p.hasOptedOut = false ∧ p.isEliminated = false then
    { p with hasOptedOut := true, isEliminated := true }
  else if p.isHoldingButton = false ∧ p.hasOptedOut = false ∧
      p.isEliminated = false then
    { p with hasOptedOut := true }
  else p

/-- The per-player transformation of the bidding tick. -/
def fTick : Player → Player := fun p =>
  if p.isHoldingButton = true ∧ p.hasOptedOut = false ∧
      p.isEliminated = false then
    let p := { p with roundHoldDuration := p.roundHoldDuration + 1 }
    if p.time - p.roundHoldDuration ≤ 0 then
      { p with isHoldingButton := false, roundHoldDuration := p.time,
               hasOptedOut := true, isEliminated := true }
    else p
  else p

/-- The per-player reset of `startNewRound`. -/
def fResetRound : Player → Player := fun p =>
  { p with isHoldingButton := false, hasOptedOut := false,
           roundHoldDuration := 0 }

/-- The per-player reset of `startPreRoundCountdown`. -/
def fResetCd : Player → Player := fun p =>
  { p with hasOptedOut := false, roundHoldDuration := 0 }

/-- The per-player reset at the end of `endRoundOnServer`. -/
def fResetEnd : Player → Player := fun p =>
  { p with isHoldingButton := false, hasOptedOut := false }

/-- The winner update of `endRoundOnServer`. -/
def fWin (winnerIds : List Nat) (maxHoldDuration : Int) : Player → Player :=
  fun p =>
    if winnerIds.contains p.id then
      { p with tokens := p.tokens + 1, time := p.time - maxHoldDuration }
    else p

theorem fPre_id (p : Player) : (fPre p).id = p.id := by
  rw [fPre]; split
  · rfl
  · split <;> rfl

theorem fPre_elim_mono (p : Player) (h : p.isEliminated = true) :
    (fPre p).isEliminated = true := by
  rw [fPre]; split
  · rfl
  · split <;> simpa

theorem fPre_playerOk (p : Player) (h : PlayerOk p) : PlayerOk (fPre p) := by
  rw [fPre]
  split
  · next hc =>
    have hnh : p.isHoldingButton = false := by
      cases hb : p.isHoldingButton with
      | false => rfl
      | true => exact absurd (h.1 hb) (by omega)
    exact ⟨fun hh => absurd (hnh ▸ hh) (by simp), fun _ => hnh⟩
  · split
    · next hc2 => exact ⟨h.1, fun he => h.2 he⟩
    · exact h

theorem fTick_id (p : Player) : (fTick p).id = p.id := by
  rw [fTick]; split
  · dsimp only; split <;> rfl
  · rfl

theorem fTick_elim_mono (p : Player) (h : p.isEliminated = true) :
    (fTick p).isEliminated = true := by
  rw [fTick]; split
  · next hc => exact absurd h (by rw [hc.2.2]; exact Bool.false_ne_true)
  · exact h

theorem fTick_playerOk (p : Player) (h : PlayerOk p) : PlayerOk (fTick p) := by
  rw [fTick]
  split
  · next hc =>
    dsimp only
    split
    · exact ⟨fun hh => absurd hh (by simp), fun _ => rfl⟩
    · exact ⟨fun _ => h.1 hc.1, fun he => absurd he (by rw [hc.2.2]; simp)⟩
  · exact h

theorem fResetRound_id (p : Player) : (fResetRound p).id = p.id := rfl
theorem fResetRound_elim (p : Player) :
    (fResetRound p).isEliminated = p.isEliminated := rfl
theorem fResetRound_playerOk (p : Player) : PlayerOk (fResetRound p) :=
  ⟨fun hh => absurd hh (by simp [fResetRound]), fun _ => rfl⟩

theorem fResetCd_id (p : Player) : (fResetCd p).id = p.id := rfl
theorem fResetCd_playerOk (p : Player) (h : PlayerOk p) :
    PlayerOk (fResetCd p) := h

theorem fResetEnd_id (p : Player) : (fResetEnd p).id = p.id := rfl
theorem fResetEnd_playerOk (p : Player) : PlayerOk (fResetEnd p) :=
  ⟨fun hh => absurd hh (by simp [fResetEnd]), fun _ => rfl⟩

theorem fWin_id (w : List Nat) (m : Int) (p : Player) :
    (fWin w m p).id = p.id := by
  rw [fWin]; split <;> rfl

theorem fWin_elim (w : List Nat) (m : Int) (p : Player) :
    (fWin w m p).isEliminated = p.isEliminated := by
  rw [fWin]; split <;> rfl

@[simp] theorem clearGameIntervals_players (g : Game) :
    (clearGameIntervals g).players = g.players := rfl

theorem modelInv_of_players_eq {g g' : Game} (h : g'.players = g.players)
    (hg : ModelInv g) : ModelInv g' :=
  ⟨by rw [NodupIds, h]; exact hg.1, by rw [PlayersInv, h]; exact hg.2⟩

theorem modelInv_of_map {g g' : Game} {F : Player → Player}
    (h : g'.players = g.players.map F)
    (hid : ∀ p, (F p).id = p.id)
    (hOk : ∀ p ∈ g.players, PlayerOk p → PlayerOk (F p))
    (hg : ModelInv g) : ModelInv g' := by
  refine ⟨by rw [NodupIds, h]; exact nodup_ids_map hid hg.1, ?_⟩
  rw [PlayersInv, h]
  intro p' hp'
  obtain ⟨p, hp, rfl⟩ := List.mem_map.mp hp'
  exact hOk p hp (hg.2 p hp)

theorem backTrack_of_map {g g' : Game} {F : Player → Player}
    (h : g'.players = g.players.map F)
    (hid : ∀ p, (F p).id = p.id)
    (hel : ∀ p, p.isEliminated = true → (F p).isEliminated = true) :
    BackTrack g.players g'.players :=
  h ▸ backTrack_map hid hel

theorem modelInv_gameEnded (g : Game) (r : EndReason) (hg : ModelInv g) :
    ModelInv (gameEnded g r) :=
  modelInv_of_players_eq (gameEnded_players g r) hg

theorem backTrack_gameEnded (g : Game) (r : EndReason) :
    BackTrack g.players (gameEnded g r).players :=
  backTrack_of_players_eq (gameEnded_players g r)

theorem armCountdown_players_eq (g : Game) :
    (armCountdown g).players = g.players.map fResetCd := rfl

theorem modelInv_armCountdown (g : Game) (hg : ModelInv g) :
    ModelInv (armCountdown g) :=
  modelInv_of_map (armCountdown_players_eq g) fResetCd_id
    (fun p _ => fResetCd_playerOk p) hg

theorem backTrack_armCountdown (g : Game) :
    BackTrack g.players (armCountdown g).players :=
  backTrack_of_map (armCountdown_players_eq g) fResetCd_id (fun _ h => h)

theorem startPreRoundCountdown_cases (g : Game) :
    startPreRoundCountdown g = g ∨
    startPreRoundCountdown g = armCountdown g := by
  rw [startPreRoundCountdown]
  split
  · exact Or.inl rfl
  · dsimp only
    split
    · split
      · exact Or.inr rfl
      · exact Or.inl rfl
    · split
      · exact Or.inr rfl
      · exact Or.inl rfl

theorem modelInv_startPreRoundCountdown (g : Game) (hg : ModelInv g) :
    ModelInv (startPreRoundCountdown g) := by
  rcases startPreRoundCountdown_cases g with h | h <;> rw [h]
  · exact hg
  · exact modelInv_armCountdown g hg

theorem backTrack_startPreRoundCountdown (g : Game) :
    BackTrack g.players (startPreRoundCountdown g).players := by
  rcases startPreRoundCountdown_cases g with h | h <;> rw [h]
  · exact backTrack_refl _
  · exact backTrack_armCountdown g

theorem handlePreRoundEnd_players (g : Game) :
    (handlePreRoundEnd g).players = g.players.map fPre := by
  simp only [handlePreRoundEnd]
  split <;> rfl

theorem modelInv_handlePreRoundEnd (g : Game) (hg : ModelInv g) :
    ModelInv (handlePreRoundEnd g) :=
  modelInv_of_map (handlePreRoundEnd_players g) fPre_id
    (fun p _ => fPre_playerOk p) hg

theorem backTrack_handlePreRoundEnd (g : Game) :
    BackTrack g.players (handlePreRoundEnd g).players :=
  backTrack_of_map (handlePreRoundEnd_players g) fPre_id fPre_elim_mono

theorem endRoundOnServer_players_cases (g : Game) :
    (endRoundOnServer g).players = g.players.map fResetEnd ∨
    ∃ w m, (endRoundOnServer g).players =
      (g.players.map (fWin w m)).map fResetEnd := by
  simp only [endRoundOnServer]
  split
  · exact Or.inl rfl
  · exact Or.inr ⟨_, _, rfl⟩

theorem modelInv_endRoundOnServer (g : Game) (hg : ModelInv g) :
    ModelInv (endRoundOnServer g) := by
  rcases endRoundOnServer_players_cases g with h | ⟨w, m, h⟩
  · exact modelInv_of_map h fResetEnd_id (fun p _ _ => fResetEnd_playerOk _) hg
  · refine ⟨?_, ?_⟩
    · rw [NodupIds, h]
      exact nodup_ids_map fResetEnd_id (nodup_ids_map (fWin_id w m) hg.1)
    · rw [PlayersInv, h]
      intro p' hp'
      obtain ⟨p, _, rfl⟩ := List.mem_map.mp hp'
      exact fResetEnd_playerOk p

theorem backTrack_endRoundOnServer (g : Game) :
    BackTrack g.players (endRoundOnServer g).players := by
  rcases endRoundOnServer_players_cases g with h | ⟨w, m, h⟩
  · exact backTrack_of_map h fResetEnd_id (fun _ hh => hh)
  · rw [h, List.map_map]
    exact backTrack_map
      (fun p => by rw [Function.comp_apply, fResetEnd_id, fWin_id])
      (fun p hh => by
        rw [Function.comp_apply]
        show (fResetEnd (fWin w m p)).isEliminated = true
        rw [show (fResetEnd (fWin w m p)).isEliminated =
          (fWin w m p).isEliminated from rfl, fWin_elim]
        exact hh)

theorem checkAllReleased_cases (g : Game) :
    checkAllReleased g = g ∨
    checkAllReleased g = endRoundOnServer (clearGameIntervals g) := by
  rw [checkAllReleased]
  split
  · dsimp only
    split
    · exact Or.inr rfl
    · exact Or.inl rfl
  · exact Or.inl rfl

theorem modelInv_checkAllReleased (g : Game) (hg : ModelInv g) :
    ModelInv (checkAllReleased g) := by
  rcases checkAllReleased_cases g with h | h <;> rw [h]
  · exact hg
  · exact modelInv_endRoundOnServer _ (modelInv_of_players_eq rfl hg)

theorem backTrack_checkAllReleased (g : Game) :
    BackTrack g.players (checkAllReleased g).players := by
  rcases checkAllReleased_cases g with h | h <;> rw [h]
  · exact backTrack_refl _
  · exact backTrack_endRoundOnServer (clearGameIntervals g)

theorem roundTick_cases (g : Game) :
    roundTick g = g ∨
    ∃ g₁ : Game, g₁.players = g.players.map fTick ∧
      roundTick g = checkAllReleased g₁ := by
  rw [roundTick]
  split
  · exact Or.inr ⟨_, rfl, rfl⟩
  · exact Or.inl rfl

theorem modelInv_roundTick (g : Game) (hg : ModelInv g) :
    ModelInv (roundTick g) := by
  rcases roundTick_cases g with h | ⟨g₁, hp, h⟩ <;> rw [h]
  · exact hg
  · exact modelInv_checkAllReleased g₁
      (modelInv_of_map hp fTick_id (fun p _ => fTick_playerOk p) hg)

theorem backTrack_roundTick (g : Game) :
    BackTrack g.players (roundTick g).players := by
  rcases roundTick_cases g with h | ⟨g₁, hp, h⟩ <;> rw [h]
  · exact backTrack_refl _
  · exact backTrack_trans (backTrack_of_map hp fTick_id fTick_elim_mono)
      (backTrack_checkAllReleased g₁)

theorem countdownTick_cases (g : Game) :
    (countdownTick g).players = g.players ∨
    ∃ g₁ : Game, g₁.players = g.players ∧
      countdownTick g = handlePreRoundEnd g₁ := by
  rw [countdownTick]
  split
  · dsimp only
    split
    · exact Or.inr ⟨{ g with preRoundCountdown := g.preRoundCountdown - 1, preRoundIntervalId := false }, rfl, rfl⟩
    · exact Or.inl rfl
  · exact Or.inl rfl

theorem modelInv_countdownTick (g : Game) (hg : ModelInv g) :
    ModelInv (countdownTick g) := by
  rcases countdownTick_cases g with h | ⟨g₁, hp, h⟩
  · exact modelInv_of_players_eq h hg
  · rw [h]
    exact modelInv_handlePreRoundEnd g₁ (modelInv_of_players_eq hp hg)

theorem backTrack_countdownTick (g : Game) :
    BackTrack g.players (countdownTick g).players := by
  rcases countdownTick_cases g with h | ⟨g₁, hp, h⟩
  · exact backTrack_of_players_eq h
  · rw [h]
    exact backTrack_trans (backTrack_of_players_eq hp)
      (backTrack_handlePreRoundEnd g₁)

theorem startNewRound_cases (g : Game) :
    (∃ r, startNewRound g = gameEnded g r) ∨
    ∃ g₁ : Game, g₁.players = g.players ∧
      startNewRound g = g₁.updateAllPlayers fResetRound := by
  rw [startNewRound]
  split
  · exact Or.inl ⟨_, rfl⟩
  · split
    · exact Or.inl ⟨_, rfl⟩
    · exact Or.inr ⟨{ g with currentRound := g.currentRound + 1, preRoundCountdown := 0, roundElapsedTime := 0, status := Status.waiting }, rfl, rfl⟩

theorem modelInv_startNewRound (g : Game) (hg : ModelInv g) :
    ModelInv (startNewRound g) := by
  rcases startNewRound_cases g with ⟨r, h⟩ | ⟨g₁, hp, h⟩ <;> rw [h]
  · exact modelInv_gameEnded g r hg
  · exact modelInv_of_map (by rw [updateAllPlayers_players, hp])
      fResetRound_id (fun p _ _ => fResetRound_playerOk p) hg

theorem backTrack_startNewRound (g : Game) :
    BackTrack g.players (startNewRound g).players := by
  rcases startNewRound_cases g with ⟨r, h⟩ | ⟨g₁, hp, h⟩ <;> rw [h]
  · exact backTrack_gameEnded g r
  · exact backTrack_of_map (by rw [updateAllPlayers_players, hp])
      fResetRound_id (fun p hh => by rw [fResetRound_elim]; exact hh)

theorem pendingStartNewRoundFires_cases (g : Game) :
    pendingStartNewRoundFires g = g ∨
    ∃ g₁ : Game, g₁.players = g.players ∧
      pendingStartNewRoundFires g = startNewRound g₁ := by
  rw [pendingStartNewRoundFires]
  split
  · exact Or.inr
      ⟨{ g with pendingStartNewRound := g.pendingStartNewRound - 1 }, rfl, rfl⟩
  · exact Or.inl rfl

theorem modelInv_pendingStartNewRoundFires (g : Game) (hg : ModelInv g) :
    ModelInv (pendingStartNewRoundFires g) := by
  rcases pendingStartNewRoundFires_cases g with h | ⟨g₁, hp, h⟩ <;> rw [h]
  · exact hg
  · exact modelInv_startNewRound g₁ (modelInv_of_players_eq hp hg)

theorem backTrack_pendingStartNewRoundFires (g : Game) :
    BackTrack g.players (pendingStartNewRoundFires g).players := by
  rcases pendingStartNewRoundFires_cases g with h | ⟨g₁, hp, h⟩ <;> rw [h]
  · exact backTrack_refl _
  · exact backTrack_trans (backTrack_of_players_eq hp)
      (backTrack_startNewRound g₁)

theorem playerHolding_cases (g : Game) (pid : Nat) :
    playerHolding g pid = g ∨
    ∃ p, g.players.find? (fun q => q.id = pid) = some p ∧
      ¬(p.time ≤ 0 ∨ p.isEliminated = true) ∧ p.isHoldingButton = false ∧
      (playerHolding g pid =
          g.updPlayer pid (fun q => { q with isHoldingButton := true }) ∨
       playerHolding g pid = startPreRoundCountdown
          (g.updPlayer pid (fun q => { q with isHoldingButton := true }))) := by
  cases hfind : g.players.find? (fun q => q.id = pid) with
  | none => left; simp only [playerHolding, hfind]
  | some p =>
    by_cases h1 : p.time ≤ 0 ∨ p.isEliminated = true
    · left; simp only [playerHolding, hfind, if_pos h1]
    · by_cases h2 : p.isHoldingButton = true
      · left; simp only [playerHolding, hfind, if_neg h1, if_pos h2]
      · right
        refine ⟨p, rfl, h1, ?_, ?_⟩
        · cases hb : p.isHoldingButton with
          | false => rfl
          | true => exact absurd hb h2
        · simp only [playerHolding, hfind, if_neg h1, if_neg h2]
          split
          · split
            · split
              · exact Or.inr rfl
              · exact Or.inl rfl
            · split
              · exact Or.inr rfl
              · exact Or.inl rfl
          · exact Or.inl rfl

theorem modelInv_updPlayer_hold (g : Game) (pid : Nat) (p : Player)
    (hfind : g.players.find? (fun q => q.id = pid) = some p)
    (h1 : ¬(p.time ≤ 0 ∨ p.isEliminated = true))
    (hg : ModelInv g) :
    ModelInv (g.updPlayer pid (fun q => { q with isHoldingButton := true })) := by
  have hpmem : p ∈ g.players := List.mem_of_find?_eq_some hfind
  rcases not_or.mp h1 with ⟨ht, he⟩
  refine modelInv_of_map (updPlayer_players g pid _) ?_ ?_ hg
  · intro q
    split <;> rfl
  · intro q hq hOk
    by_cases hqid : q.id = pid
    · have hq_eq : q = p := by
        have hpid' := List.find?_some hfind
        have hpid : p.id = pid := of_decide_eq_true hpid'
        exact eq_of_mem_of_nodup_ids hg.1 hq hpmem (by rw [hqid, hpid])
      rw [if_pos hqid, hq_eq]
      constructor
      · intro _
        show 0 < p.time
        omega
      · intro hel
        have hel' : p.isEliminated = true := hel
        exact absurd hel' he
    · rw [if_neg hqid]
      exact hOk

theorem modelInv_playerHolding (g : Game) (pid : Nat) (hg : ModelInv g) :
    ModelInv (playerHolding g pid) := by
  rcases playerHolding_cases g pid with h | ⟨p, hfind, h1, h2, hc | hc⟩
  · rw [h]; exact hg
  · rw [hc]; exact modelInv_updPlayer_hold g pid p hfind h1 hg
  · rw [hc]
    exact modelInv_startPreRoundCountdown _
      (modelInv_updPlayer_hold g pid p hfind h1 hg)

theorem backTrack_updPlayer_generic (g : Game) (pid : Nat)
    (f : Player → Player) (hid : ∀ q, (f q).id = q.id)
    (hel : ∀ q, q.isEliminated = true → (f q).isEliminated = true) :
    BackTrack g.players (g.updPlayer pid f).players := by
  refine backTrack_of_map (updPlayer_players g pid f) ?_ ?_
  · intro q
    split
    · exact hid q
    · rfl
  · intro q hq
    split
    · exact hel q hq
    · exact hq

theorem backTrack_playerHolding (g : Game) (pid : Nat) :
    BackTrack g.players (playerHolding g pid).players := by
  rcases playerHolding_cases g pid with h | ⟨p, hfind, h1, h2, hc | hc⟩
  · rw [h]; exact backTrack_refl _
  · rw [hc]
    exact backTrack_updPlayer_generic g pid
      (fun q => { q with isHoldingButton := true }) (fun q => rfl)
      (fun q hq => hq)
  · rw [hc]
    exact backTrack_trans
      (backTrack_updPlayer_generic g pid
        (fun q => { q with isHoldingButton := true }) (fun q => rfl)
        (fun q hq => hq))
      (backTrack_startPreRoundCountdown _)

theorem playerReleased_cases (g : Game) (pid : Nat) :
    playerReleased g pid = g ∨
    (playerReleased g pid =
      (g.updPlayer pid (fun q => { q with isHoldingButton := false })).updPlayer
        pid (fun q => { q with hasOptedOut := true }) ∨
     playerReleased g pid = checkAllReleased
      (g.updPlayer pid (fun q => { q with isHoldingButton := false })) ∨
     playerReleased g pid =
      g.updPlayer pid (fun q => { q with isHoldingButton := false })) := by
  cases hfind : g.players.find? (fun q => q.id = pid) with
  | none => left; simp only [playerReleased, hfind]
  | some p =>
    by_cases h1 : p.isHoldingButton = true
    · right
      simp only [playerReleased, hfind, if_pos h1]
      split
      · exact Or.inl rfl
      · split
        · exact Or.inr (Or.inl rfl)
        · exact Or.inr (Or.inr rfl)
    · left; simp only [playerReleased, hfind, if_neg h1]

theorem modelInv_updPlayer_release (g : Game) (pid : Nat) (hg : ModelInv g) :
    ModelInv (g.updPlayer pid
      (fun q => { q with isHoldingButton := false })) := by
  refine modelInv_of_map (updPlayer_players g pid _) ?_ ?_ hg
  · intro q
    split <;> rfl
  · intro q hq hOk
    split
    · exact ⟨fun hh => absurd hh (by simp), fun _ => rfl⟩
    · exact hOk

theorem modelInv_playerReleased (g : Game) (pid : Nat) (hg : ModelInv g) :
    ModelInv (playerReleased g pid) := by
  rcases playerReleased_cases g pid with h | hc | hc | hc
  · rw [h]; exact hg
  · rw [hc]
    refine modelInv_of_map (updPlayer_players _ pid _) ?_ ?_
      (modelInv_updPlayer_release g pid hg)
    · intro q
      split <;> rfl
    · intro q hq hOk
      split
      · exact ⟨hOk.1, fun he => hOk.2 he⟩
      · exact hOk
  · rw [hc]
    exact modelInv_checkAllReleased _ (modelInv_updPlayer_release g pid hg)
  · rw [hc]
    exact modelInv_updPlayer_release g pid hg

theorem backTrack_playerReleased (g : Game) (pid : Nat) :
    BackTrack g.players (playerReleased g pid).players := by
  have hb1 : BackTrack g.players
      (g.updPlayer pid (fun q => { q with isHoldingButton := false })).players :=
    backTrack_updPlayer_generic g pid
      (fun q => { q with isHoldingButton := false }) (fun q => rfl)
      (fun q hq => hq)
  rcases playerReleased_cases g pid with h | hc | hc | hc
  · rw [h]; exact backTrack_refl _
  · rw [hc]
    exact backTrack_trans hb1
      (backTrack_updPlayer_generic _ pid
        (fun q => { q with hasOptedOut := true }) (fun q => rfl)
        (fun q hq => hq))
  · rw [hc]
    exact backTrack_trans hb1 (backTrack_checkAllReleased _)
  · rw [hc]
    exact hb1

theorem leaveRoom_some_cases (g : Game) (pid : Nat) (g' : Game)
    (h : leaveRoom g pid = some g') :
    ∃ g₁ : Game,
      g₁.players = g.players.filter (fun p => !(p.id = pid : Bool)) ∧
      (g' = gameEnded g₁ EndReason.insufficientPlayers ∨
       g' = startPreRoundCountdown g₁ ∨
       g' = checkAllReleased g₁ ∨
       g'.players = g₁.players) := by
  simp only [leaveRoom] at h
  split at h
  · exact absurd h (by simp)
  · split at h
    · rw [Option.some.injEq] at h
      subst h
      exact ⟨_, rfl, Or.inl rfl⟩
    · split at h
      · split at h
        · split at h
          · rw [Option.some.injEq] at h
            subst h
            exact ⟨_, rfl, Or.inr (Or.inl rfl)⟩
          · rw [Option.some.injEq] at h
            subst h
            exact ⟨_, rfl, Or.inr (Or.inr (Or.inr rfl))⟩
        · split at h
          · rw [Option.some.injEq] at h
            subst h
            exact ⟨_, rfl, Or.inr (Or.inr (Or.inl rfl))⟩
          · rw [Option.some.injEq] at h
            subst h
            exact ⟨_, rfl, Or.inr (Or.inr (Or.inr rfl))⟩
      · rw [Option.some.injEq] at h
        subst h
        exact ⟨_, rfl, Or.inr (Or.inr (Or.inr rfl))⟩

theorem modelInv_filter_players (g : Game) (pred : Player → Bool)
    (hg : ModelInv g) {g₁ : Game}
    (h : g₁.players = g.players.filter pred) : ModelInv g₁ := by
  refine ⟨?_, ?_⟩
  · rw [NodupIds, h]
    exact nodup_ids_filter pred hg.1
  · rw [PlayersInv, h]
    intro p hp
    exact hg.2 p (List.mem_filter.mp hp).1

theorem modelInv_leaveRoom (g : Game) (pid : Nat) (g' : Game)
    (h : leaveRoom g pid = some g') (hg : ModelInv g) : ModelInv g' := by
  obtain ⟨g₁, hp1, hc⟩ := leaveRoom_some_cases g pid g' h
  have hg₁ : ModelInv g₁ := modelInv_filter_players g _ hg hp1
  rcases hc with hc | hc | hc | hc
  · rw [hc]; exact modelInv_gameEnded g₁ _ hg₁
  · rw [hc]; exact modelInv_startPreRoundCountdown g₁ hg₁
  · rw [hc]; exact modelInv_checkAllReleased g₁ hg₁
  · exact modelInv_filter_players g _ hg (hc.trans hp1)

theorem backTrack_leaveRoom (g : Game) (pid : Nat) (g' : Game)
    (h : leaveRoom g pid = some g') : BackTrack g.players g'.players := by
  obtain ⟨g₁, hp1, hc⟩ := leaveRoom_some_cases g pid g' h
  have hb1 : BackTrack g.players g₁.players := by
    rw [hp1]; exact backTrack_filter _ _
  rcases hc with hc | hc | hc | hc
  · rw [hc]; exact backTrack_trans hb1 (backTrack_gameEnded g₁ _)
  · rw [hc]; exact backTrack_trans hb1 (backTrack_startPreRoundCountdown g₁)
  · rw [hc]; exact backTrack_trans hb1 (backTrack_checkAllReleased g₁)
  · exact backTrack_trans hb1 (backTrack_of_players_eq hc)

theorem joinEvent_cases (g : Game) (pid pname : Nat) (g' : Game)
    (h : applyEvent (Event.join pid pname) g = some g') :
    g' = g ∨
    ((g.players.any (fun p => p.id = pid)) = false ∧
      g'.players = g.players ++
        [{ id := pid, name := pname, time := g.players.headI.time, tokens := 0,
           isHoldingButton := false, hasOptedOut := false,
           roundHoldDuration := 0, isEliminated := false }]) := by
  simp only [applyEvent] at h
  split at h
  · rw [Option.some.injEq] at h
    exact Or.inl h.symm
  · next hany =>
    split at h
    · rw [Option.some.injEq] at h
      exact Or.inl h.symm
    · next g₂ heq =>
      rw [Option.some.injEq] at h
      subst h
      rw [joinRoom] at heq
      split at heq
      · exact absurd heq (by simp)
      · split at heq
        · exact absurd heq (by simp)
        · split at heq
          · exact absurd heq (by simp)
          · rw [Sum.inr.injEq] at heq
            subst heq
            refine Or.inr ⟨?_, rfl⟩
            cases hb : g.players.any (fun p => p.id = pid) with
            | false => rfl
            | true => exact absurd hb (by simpa using hany)

theorem modelInv_applyEvent (e : Event) (g g' : Game)
    (h : applyEvent e g = some g') (hg : ModelInv g) : ModelInv g' := by
  cases e with
  | hold pid =>
    rw [applyEvent, Option.some.injEq] at h
    subst h
    exact modelInv_playerHolding g pid hg
  | release pid =>
    rw [applyEvent, Option.some.injEq] at h
    subst h
    exact modelInv_playerReleased g pid hg
  | join pid pname =>
    rcases joinEvent_cases g pid pname g' h with rfl | ⟨hany, hp⟩
    · exact hg
    · have hfree : ∀ q ∈ g.players, ¬(q.id = pid) := by
        intro q hq hc
        have : g.players.any (fun p => p.id = pid) = true :=
          List.any_eq_true.mpr ⟨q, hq, decide_eq_true hc⟩
        rw [hany] at this
        exact Bool.false_ne_true this
      refine ⟨?_, ?_⟩
      · rw [NodupIds, hp, List.map_append]
        rw [List.nodup_append]
        refine ⟨hg.1, List.nodup_singleton _, ?_⟩
        intro a ha hb
        obtain ⟨q, hq, rfl⟩ := List.mem_map.mp ha
        simp only [List.map_cons, List.map_nil, List.mem_singleton] at hb
        exact hfree q hq hb
      · rw [PlayersInv, hp]
        intro p hpmem
        rcases List.mem_append.mp hpmem with hm | hm
        · exact hg.2 p hm
        · rw [List.mem_singleton.mp hm]
          exact ⟨fun hh => absurd hh (by simp), fun he => absurd he (by simp)⟩
  | leave pid =>
    exact modelInv_leaveRoom g pid g' h hg
  | ctick =>
    rw [applyEvent, Option.some.injEq] at h
    subst h
    exact modelInv_countdownTick g hg
  | rtick =>
    rw [applyEvent, Option.some.injEq] at h
    subst h
    exact modelInv_roundTick g hg
  | fire =>
    rw [applyEvent, Option.some.injEq] at h
    subst h
    exact modelInv_pendingStartNewRoundFires g hg

theorem elimMono_applyEvent (e : Event) (g g' : Game)
    (h : applyEvent e g = some g') (hg : ModelInv g) :
    ElimMono g.players g'.players := by
  cases e with
  | hold pid =>
    rw [applyEvent, Option.some.injEq] at h
    subst h
    exact elimMono_of_backTrack hg.1 (backTrack_playerHolding g pid)
  | release pid =>
    rw [applyEvent, Option.some.injEq] at h
    subst h
    exact elimMono_of_backTrack hg.1 (backTrack_playerReleased g pid)
  | join pid pname =>
    rcases joinEvent_cases g pid pname g' h with rfl | ⟨hany, hp⟩
    · exact elimMono_of_backTrack hg.1 (backTrack_refl _)
    · intro p hpmem p' hp'mem hid hel
      rw [hp] at hp'mem
      rcases List.mem_append.mp hp'mem with hm | hm
      · have heq := eq_of_mem_of_nodup_ids hg.1 hpmem hm hid
        rw [← heq]
        exact hel
      · exfalso
        have hidp : p.id = pid := by
          rw [List.mem_singleton.mp hm] at hid
          exact hid
        have : g.players.any (fun q => q.id = pid) = true :=
          List.any_eq_true.mpr ⟨p, hpmem, decide_eq_true hidp⟩
        rw [hany] at this
        exact Bool.false_ne_true this
  | leave pid =>
    exact elimMono_of_backTrack hg.1 (backTrack_leaveRoom g pid g' h)
  | ctick =>
    rw [applyEvent, Option.some.injEq] at h
    subst h
    exact elimMono_of_backTrack hg.1 (backTrack_countdownTick g)
  | rtick =>
    rw [applyEvent, Option.some.injEq] at h
    subst h
    exact elimMono_of_backTrack hg.1 (backTrack_roundTick g)
  | fire =>
    rw [applyEvent, Option.some.injEq] at h
    subst h
    exact elimMono_of_backTrack hg.1 (backTrack_pendingStartNewRoundFires g)

theorem modelInv_initial (g : Game) (h : InitialRoom g) : ModelInv g := by
  obtain ⟨pid, pname, t, r, hc⟩ := h
  rw [createRoom] at hc
  split at hc
  · exact absurd hc (by simp)
  · split at hc
    · exact absurd hc (by simp)
    · rw [Option.some.injEq] at hc
      subst hc
      apply modelInv_startNewRound
      refine ⟨by simp [NodupIds], ?_⟩
      intro p hp
      rw [List.mem_singleton.mp hp]
      exact ⟨fun hh => absurd hh (by simp), fun he => absurd he (by simp)⟩

theorem modelInv_reachable (g : Game) (h : ReachableRoom g) : ModelInv g := by
  obtain ⟨g₀, h0, hsteps⟩ := h
  induction hsteps with
  | refl => exact modelInv_initial g₀ h0
  | tail hs hstep ih =>
    obtain ⟨e, he⟩ := hstep
    exact modelInv_applyEvent e _ _ he ih

theorem endRoundOnServer_players_shape (h : Game) :
    (endRoundOnServer h).players = h.players.map fResetEnd ∨
    (endRoundOnServer h).players =
      (h.players.map
        (fWin ((roundWinnersCalc h.activePlayersInRound).2.map (fun w => w.id))
          (roundWinnersCalc h.activePlayersInRound).1)).map fResetEnd := by
  simp only [endRoundOnServer]
  split
  · exact Or.inl rfl
  · exact Or.inr rfl

theorem roundTick_forced_release (g : Game) (p : Player)
    (htimer : g.roundTimerIntervalId = true)
    (hsync : ∀ a ∈ g.activePlayersInRound, ∀ q ∈ g.players, q.id = a.id → a = q)
    (hp : p ∈ g.players)
    (hh : p.isHoldingButton = true) (ho : p.hasOptedOut = false)
    (he : p.isEliminated = false)
    (hexh : p.time - (p.roundHoldDuration + 1) ≤ 0) :
    ∃ p' ∈ (roundTick g).players, p'.id = p.id ∧ p'.isEliminated = true ∧
      p'.isHoldingButton = false ∧ p'.roundHoldDuration = p.time ∧
      p'.time = p.time := by
  have hfp : fTick p = { p with isHoldingButton := false, roundHoldDuration := p.time, hasOptedOut := true, isEliminated := true } := by
    rw [fTick, if_pos ⟨hh, ho, he⟩]
    dsimp only
    rw [if_pos hexh]
  set G₁ : Game :=
    ({ g with roundElapsedTime := g.roundElapsedTime + 1 } : Game).updateAllPlayers
      fTick with hG1def
  have hstep : roundTick g = checkAllReleased G₁ := by
    rw [roundTick, if_pos htimer, hG1def]
    rfl
  have hG1players : G₁.players = g.players.map fTick := rfl
  have hG1active : G₁.activePlayersInRound =
      g.activePlayersInRound.map
        (fun a => if g.players.any (fun q => q.id = a.id) then fTick a else a) :=
    rfl
  have hmem : fTick p ∈ G₁.players := by
    rw [hG1players]
    exact List.mem_map_of_mem fTick hp
  have hnotin : p.id ∉
      (roundWinnersCalc G₁.activePlayersInRound).2.map (fun w => w.id) := by
    intro hmemW
    obtain ⟨w, hw, hwid⟩ := List.mem_map.mp hmemW
    rw [roundWinnersCalc_spec] at hw
    have hw2 : w ∈ eligibleOf G₁.activePlayersInRound :=
      (List.mem_filter.mp hw).1
    rw [eligibleOf] at hw2
    obtain ⟨hwA, hwElig⟩ := List.mem_filter.mp hw2
    rw [hG1active] at hwA
    obtain ⟨a, ha, hwa⟩ := List.mem_map.mp hwA
    by_cases hc : g.players.any (fun q => q.id = a.id) = true
    · rw [if_pos hc] at hwa
      have haid : a.id = p.id := by
        rw [← hwa, fTick_id] at hwid
        exact hwid
      have hap : a = p := hsync a ha p hp haid.symm
      rw [hap] at hwa
      rw [← hwa, hfp] at hwElig
      simp at hwElig
    · rw [if_neg hc] at hwa
      have haid : a.id = p.id := by rw [← hwa] at hwid; exact hwid
      exact hc (List.any_eq_true.mpr ⟨p, hp, decide_eq_true haid.symm⟩)
  have hfr : fResetEnd (fTick p) = { p with isHoldingButton := false, hasOptedOut := false, roundHoldDuration := p.time, isEliminated := true } := by
    rw [hfp]
    rfl
  rcases checkAllReleased_cases G₁ with hcr | hcr
  · rw [hstep, hcr]
    refine ⟨fTick p, hmem, ?_, ?_, ?_, ?_, ?_⟩ <;> rw [hfp]
  · rw [hstep, hcr]
    rcases endRoundOnServer_players_shape (clearGameIntervals G₁) with hsh | hsh
    · refine ⟨fResetEnd (fTick p), ?_, ?_, ?_, ?_, ?_, ?_⟩
      · rw [hsh]
        exact List.mem_map_of_mem fResetEnd hmem
      all_goals rw [hfr]
    · have hWin : fWin
          ((roundWinnersCalc (clearGameIntervals G₁).activePlayersInRound).2.map
            (fun w => w.id))
          (roundWinnersCalc (clearGameIntervals G₁).activePlayersInRound).1
          (fTick p) = fTick p := by
        rw [fWin]
        rw [if_neg ?hcc]
        case hcc =>
          intro hcc
          apply hnotin
          have hidp : (fTick p).id = p.id := fTick_id p
          rw [hidp] at hcc
          simpa using hcc
      refine ⟨fResetEnd (fTick p), ?_, ?_, ?_, ?_, ?_, ?_⟩
      · rw [hsh]
        refine List.mem_map_of_mem fResetEnd ?_
        rw [← hWin]
        exact List.mem_map_of_mem _ hmem
      all_goals rw [hfr]

/-- The state one bidding tick before `c1Bad`: player 0 holds with time 6 and
a hold duration of 5, so the next tick forces a release. -/
def c1PreTrace : List Event := c1Trace.dropLast

def c1Pre : Game := (applyEvents c1PreTrace room10x5).getD default

/-- C1 (amended): in every reachable room state, a holding player has a
positive time budget and an eliminated player is not holding; across any
single step from a reachable state, elimination is monotone (id-wise, a player
eliminated before the step stays eliminated after it); and when the bidding
timer is live and a holding, non-opted-out, non-eliminated player's budget is
exhausted by the next tick, the tick leaves a same-id player eliminated, not
holding, with `roundHoldDuration` set to the player's time budget — but the
`time` field itself is NOT reduced, so an eliminated player's time can remain
positive (the claim's `time ≤ 0` clause fails, see the counterexample). -/
theorem C1_amended :
    (∀ g : Game, ReachableRoom g →
      ∀ p ∈ g.players, (p.isHoldingButton = true → 0 < p.time) ∧
        (p.isEliminated = true → p.isHoldingButton = false)) ∧
    (∀ g g' : Game, ReachableRoom g → GameStep g g' →
      ∀ p ∈ g.players, ∀ p' ∈ g'.players, p.id = p'.id →
        p.isEliminated = true → p'.isEliminated = true) ∧
    (∀ g : Game, ∀ p : Player, g.roundTimerIntervalId = true →
      (∀ a ∈ g.activePlayersInRound, ∀ q ∈ g.players, q.id = a.id → a = q) →
      p ∈ g.players → p.isHoldingButton = true → p.hasOptedOut = false →
      p.isEliminated = false → p.time - (p.roundHoldDuration + 1) ≤ 0 →
      ∃ p' ∈ (roundTick g).players, p'.id = p.id ∧ p'.isEliminated = true ∧
        p'.isHoldingButton = false ∧ p'.roundHoldDuration = p.time ∧
        p'.time = p.time) := by
  refine ⟨?_, ?_, ?_⟩
  · intro g hg p hp
    exact (modelInv_reachable g hg).2 p hp
  · intro g g' hg hstep p hp p' hp' hid he
    obtain ⟨e, hee⟩ := hstep
    exact elimMono_applyEvent e g g' hee (modelInv_reachable g hg) p hp p' hp' hid he
  · intro g p htimer hsync hp hh ho he hexh
    exact roundTick_forced_release g p htimer hsync hp hh ho he hexh

/-- C1 witness: the amended theorem applied at concrete reachable states. -/
theorem C1_witness :
    (∀ p ∈ room10x5.players, (p.isHoldingButton = true → 0 < p.time) ∧
      (p.isEliminated = true → p.isHoldingButton = false)) ∧
    (∀ p ∈ c1Pre.players, ∀ p' ∈ c1Bad.players, p.id = p'.id →
      p.isEliminated = true → p'.isEliminated = true) ∧
    (∃ p' ∈ (roundTick c1Pre).players,
      p'.id = (c1Pre.players.headI).id ∧ p'.isEliminated = true ∧
      p'.isHoldingButton = false ∧
      p'.roundHoldDuration = (c1Pre.players.headI).time ∧
      p'.time = (c1Pre.players.headI).time) := by
  refine ⟨?_, ?_, ?_⟩
  · exact C1_amended.1 room10x5
      ⟨room10x5, ⟨0, 0, 10, 5, by decide⟩, Relation.ReflTransGen.refl⟩
  · exact C1_amended.2.1 c1Pre c1Bad
      ⟨room10x5, ⟨0, 0, 10, 5, by decide⟩,
        reachable_of_applyEvents c1PreTrace _ _ (by decide)⟩
      ⟨Event.rtick, by decide⟩
  · exact C1_amended.2.2 c1Pre (c1Pre.players.headI) (by decide) (by decide)
      (by decide) (by decide) (by decide) (by decide) (by decide)

/-! ## Provenance of the hasOptedOut flag -/

/-- Every opted-out player of `l'` descends from an already opted-out player
of `l` with the same id (the step created no new opt-outs). -/
def OptFrom (l l' : List Player) : Prop :=
  ∀ p' ∈ l', p'.hasOptedOut = true →
    ∃ p ∈ l, p.id = p'.id ∧ p.hasOptedOut = true

theorem optFrom_refl (l : List Player) : OptFrom l l :=
  fun p' hp' ho' => ⟨p', hp', rfl, ho'⟩

theorem optFrom_of_players_eq {l l' : List Player} (h : l' = l) :
    OptFrom l l' :=
  fun p' hp' ho' => ⟨p', h ▸ hp', rfl, ho'⟩

theorem optFrom_trans {l₁ l₂ l₃ : List Player}
    (h12 : OptFrom l₁ l₂) (h23 : OptFrom l₂ l₃) : OptFrom l₁ l₃ := by
  intro p' hp' ho'
  obtain ⟨q, hq, hqid, hqo⟩ := h23 p' hp' ho'
  obtain ⟨p, hp, hpid, hpo⟩ := h12 q hq hqo
  exact ⟨p, hp, hpid.trans hqid, hpo⟩

theorem optFrom_map {l : List Player} {f : Player → Player}
    (hid : ∀ p, (f p).id = p.id)
    (ho : ∀ p, (f p).hasOptedOut = true → p.hasOptedOut = true) :
    OptFrom l (l.map f) := by
  intro p' hp' ho'
  obtain ⟨p, hp, hfp⟩ := List.mem_map.mp hp'
  refine ⟨p, hp, ?_, ho p (by rw [hfp]; exact ho')⟩
  rw [← hfp, hid]

theorem optFrom_filter (l : List Player) (q : Player → Bool) :
    OptFrom l (l.filter q) :=
  fun p' hp' ho' => ⟨p', List.mem_of_mem_filter hp', rfl, ho'⟩

theorem optFrom_updPlayer (g : Game) (pid : Nat) (f : Player → Player)
    (hid : ∀ p, (f p).id = p.id)
    (ho : ∀ p, (f p).hasOptedOut = true → p.hasOptedOut = true) :
    OptFrom g.players (g.updPlayer pid f).players := by
  rw [updPlayer_players]
  refine optFrom_map ?_ ?_
  · intro p
    by_cases hc : p.id = pid
    · rw [if_pos hc, hid]
    · rw [if_neg hc]
  · intro p hp
    by_cases hc : p.id = pid
    · rw [if_pos hc] at hp
      exact ho p hp
    · rw [if_neg hc] at hp
      exact hp

theorem optFrom_gameEnded (g : Game) (r : EndReason) :
    OptFrom g.players (gameEnded g r).players := by
  rw [gameEnded_players]
  exact optFrom_refl _

theorem optFrom_armCountdown (g : Game) :
    OptFrom g.players (armCountdown g).players := by
  rw [armCountdown_players_eq]
  refine optFrom_map (fun p => rfl) ?_
  intro p hp
  exact Bool.noConfusion hp

theorem optFrom_startPreRoundCountdown (g : Game) :
    OptFrom g.players (startPreRoundCountdown g).players := by
  rcases startPreRoundCountdown_cases g with h | h
  · rw [h]; exact optFrom_refl _
  · rw [h]; exact optFrom_armCountdown g

theorem endRoundOnServer_opted (g : Game) :
    ∀ p ∈ (endRoundOnServer g).players, p.hasOptedOut = false := by
  intro p hp
  rcases endRoundOnServer_players_shape g with hsh | hsh
  · rw [hsh] at hp
    obtain ⟨q, _, hq⟩ := List.mem_map.mp hp
    rw [← hq]
    rfl
  · rw [hsh] at hp
    obtain ⟨q, _, hq⟩ := List.mem_map.mp hp
    rw [← hq]
    rfl

theorem optFrom_checkAllReleased (g : Game) :
    OptFrom g.players (checkAllReleased g).players := by
  rcases checkAllReleased_cases g with h | h
  · rw [h]; exact optFrom_refl _
  · rw [h]
    intro p' hp' ho'
    have hfalse := endRoundOnServer_opted (clearGameIntervals g) p' hp'
    rw [ho'] at hfalse
    exact Bool.noConfusion hfalse

theorem optFrom_startNewRound (g : Game) :
    OptFrom g.players (startNewRound g).players := by
  rcases startNewRound_cases g with ⟨r, hr⟩ | ⟨g₁, hpl, hr⟩
  · rw [hr]; exact optFrom_gameEnded g r
  · rw [hr]
    intro p' hp' ho'
    rw [updateAllPlayers_players, hpl] at hp'
    obtain ⟨q, _, hq⟩ := List.mem_map.mp hp'
    rw [← hq] at ho'
    exact Bool.noConfusion ho'

theorem optFrom_pendingFires (g : Game) :
    OptFrom g.players (pendingStartNewRoundFires g).players := by
  rcases pendingStartNewRoundFires_cases g with h | ⟨g₁, hpl, h⟩
  · rw [h]; exact optFrom_refl _
  · rw [h]
    have h1 := optFrom_startNewRound g₁
    rw [hpl] at h1
    exact h1

theorem optFrom_playerHolding (g : Game) (pid : Nat) :
    OptFrom g.players (playerHolding g pid).players := by
  rcases playerHolding_cases g pid with h | ⟨p, hfind, hcond, hhold, h | h⟩
  · rw [h]; exact optFrom_refl _
  · rw [h]
    exact optFrom_updPlayer g pid _ (fun q => rfl) (fun q hq => hq)
  · rw [h]
    exact optFrom_trans
      (optFrom_updPlayer g pid (fun q => { q with isHoldingButton := true })
        (fun q => rfl) (fun q hq => hq))
      (optFrom_startPreRoundCountdown _)

theorem optFrom_leaveRoom (g : Game) (pid : Nat) (g' : Game)
    (h : leaveRoom g pid = some g') :
    OptFrom g.players g'.players := by
  obtain ⟨g₁, hpl, hc⟩ := leaveRoom_some_cases g pid g' h
  have h0 : OptFrom g.players g₁.players := by
    rw [hpl]
    exact optFrom_filter _ _
  rcases hc with hc | hc | hc | hc
  · rw [hc]; exact optFrom_trans h0 (optFrom_gameEnded g₁ _)
  · rw [hc]; exact optFrom_trans h0 (optFrom_startPreRoundCountdown g₁)
  · rw [hc]; exact optFrom_trans h0 (optFrom_checkAllReleased g₁)
  · exact optFrom_trans h0 (optFrom_of_players_eq hc)

theorem optFrom_join (g : Game) (pid pname : Nat) (g' : Game)
    (h : applyEvent (Event.join pid pname) g = some g') :
    OptFrom g.players g'.players := by
  rcases joinEvent_cases g pid pname g' h with h1 | ⟨_, h1⟩
  · rw [h1]; exact optFrom_refl _
  · intro p' hp' ho'
    rw [h1] at hp'
    rcases List.mem_append.mp hp' with hp2 | hp2
    · exact ⟨p', hp2, rfl, ho'⟩
    · rw [List.mem_singleton] at hp2
      rw [hp2] at ho'
      exact Bool.noConfusion ho'

theorem playerReleased_cases_cond (g : Game) (pid : Nat) :
    playerReleased g pid = g ∨
    (g.status = Status.preCountdown ∧ g.preRoundIntervalId = true ∧
      playerReleased g pid =
        (g.updPlayer pid (fun q => { q with isHoldingButton := false })).updPlayer
          pid (fun q => { q with hasOptedOut := true })) ∨
    (playerReleased g pid = checkAllReleased
        (g.updPlayer pid (fun q => { q with isHoldingButton := false }))) ∨
    (playerReleased g pid =
        g.updPlayer pid (fun q => { q with isHoldingButton := false })) := by
  cases hfind : g.players.find? (fun q => q.id = pid) with
  | none => left; simp only [playerReleased, hfind]
  | some p =>
    by_cases h1 : p.isHoldingButton = true
    · by_cases h2 : g.status = Status.preCountdown ∧ g.preRoundIntervalId = true
      · refine Or.inr (Or.inl ⟨h2.1, h2.2, ?_⟩)
        simp only [playerReleased, hfind, if_pos h1, updPlayer_status,
          updPlayer_preRoundIntervalId]
        rw [if_pos h2]
      · simp only [playerReleased, hfind, if_pos h1, updPlayer_status,
          updPlayer_preRoundIntervalId]
        rw [if_neg h2]
        by_cases h3 : g.status = Status.inRound
        · refine Or.inr (Or.inr (Or.inl ?_))
          rw [if_pos h3]
        · refine Or.inr (Or.inr (Or.inr ?_))
          rw [if_neg h3]
    · left
      simp only [playerReleased, hfind, if_neg h1]

theorem optOut_playerReleased (g : Game) (pid : Nat) (p' : Player)
    (hp' : p' ∈ (playerReleased g pid).players) (ho' : p'.hasOptedOut = true) :
    (∃ p ∈ g.players, p.id = p'.id ∧ p.hasOptedOut = true) ∨
    (p'.id = pid ∧ g.status = Status.preCountdown ∧
      g.preRoundIntervalId = true) := by
  have hupd : OptFrom g.players
      (g.updPlayer pid (fun q => { q with isHoldingButton := false })).players :=
    optFrom_updPlayer g pid (fun q => { q with isHoldingButton := false })
      (fun q => rfl) (fun q hq => hq)
  rcases playerReleased_cases_cond g pid with h | ⟨hs, hi, h⟩ | h | h
  · rw [h] at hp'
    exact Or.inl ⟨p', hp', rfl, ho'⟩
  · rw [h] at hp'
    rw [updPlayer_players] at hp'
    obtain ⟨q, hq, hfq⟩ := List.mem_map.mp hp'
    by_cases hc : q.id = pid
    · refine Or.inr ⟨?_, hs, hi⟩
      rw [if_pos hc] at hfq
      rw [← hfq]
      exact hc
    · rw [if_neg hc] at hfq
      rw [hfq] at hq
      exact Or.inl (hupd p' hq ho')
  · rw [h] at hp'
    exact Or.inl (optFrom_trans hupd (optFrom_checkAllReleased _) p' hp' ho')
  · rw [h] at hp'
    exact Or.inl (hupd p' hp' ho')

theorem optOut_countdownTick (g : Game) (p' : Player)
    (hp' : p' ∈ (countdownTick g).players) (ho' : p'.hasOptedOut = true) :
    (∃ p ∈ g.players, p.id = p'.id ∧ p.hasOptedOut = true) ∨
    (∃ p ∈ g.players, p.id = p'.id ∧ p.hasOptedOut = false ∧
      p.isEliminated = false ∧ (p.time ≤ 0 ∨ p.isHoldingButton = false)) := by
  rcases countdownTick_cases g with h | ⟨g₁, hpl, h⟩
  · rw [h] at hp'
    exact Or.inl ⟨p', hp', rfl, ho'⟩
  · rw [h, handlePreRoundEnd_players, hpl] at hp'
    obtain ⟨p, hp, hfp⟩ := List.mem_map.mp hp'
    rw [fPre] at hfp
    by_cases h1 : p.time ≤ 0 ∧ p.hasOptedOut = false ∧ p.isEliminated = false
    · rw [if_pos h1] at hfp
      refine Or.inr ⟨p, hp, ?_, h1.2.1, h1.2.2, Or.inl h1.1⟩
      rw [← hfp]
    · rw [if_neg h1] at hfp
      by_cases h2 : p.isHoldingButton = false ∧ p.hasOptedOut = false ∧
          p.isEliminated = false
      · rw [if_pos h2] at hfp
        refine Or.inr ⟨p, hp, ?_, h2.2.1, h2.2.2, Or.inr h2.1⟩
        rw [← hfp]
      · rw [if_neg h2] at hfp
        refine Or.inl ⟨p, hp, ?_, ?_⟩
        · rw [hfp]
        · rw [hfp]
          exact ho'

theorem optOut_roundTick (g : Game) (p' : Player)
    (hp' : p' ∈ (roundTick g).players) (ho' : p'.hasOptedOut = true) :
    (∃ p ∈ g.players, p.id = p'.id ∧ p.hasOptedOut = true) ∨
    (∃ p ∈ g.players, p.id = p'.id ∧ p.isHoldingButton = true ∧
      p.hasOptedOut = false ∧ p.isEliminated = false ∧
      p.time - (p.roundHoldDuration + 1) ≤ 0) := by
  rcases roundTick_cases g with h | ⟨g₁, hpl, h⟩
  · rw [h] at hp'
    exact Or.inl ⟨p', hp', rfl, ho'⟩
  · rw [h] at hp'
    rcases checkAllReleased_cases g₁ with hc | hc
    · rw [hc, hpl] at hp'
      obtain ⟨p, hp, hfp⟩ := List.mem_map.mp hp'
      rw [fTick] at hfp
      by_cases h1 : p.isHoldingButton = true ∧ p.hasOptedOut = false ∧
          p.isEliminated = false
      · rw [if_pos h1] at hfp
        dsimp only at hfp
        by_cases h2 : p.time - (p.roundHoldDuration + 1) ≤ 0
        · rw [if_pos h2] at hfp
          refine Or.inr ⟨p, hp, ?_, h1.1, h1.2.1, h1.2.2, h2⟩
          rw [← hfp]
        · rw [if_neg h2] at hfp
          rw [← hfp] at ho'
          have ho2 : p.hasOptedOut = true := ho'
          rw [h1.2.1] at ho2
          exact Bool.noConfusion ho2
      · rw [if_neg h1] at hfp
        refine Or.inl ⟨p, hp, ?_, ?_⟩
        · rw [hfp]
        · rw [hfp]
          exact ho'
    · rw [hc] at hp'
      have hfalse := endRoundOnServer_opted (clearGameIntervals g₁) p' hp'
      rw [ho'] at hfalse
      exact Bool.noConfusion hfalse

theorem optOut_applyEvent (e : Event) (g g' : Game)
    (h : applyEvent e g = some g')
    (p' : Player) (hp' : p' ∈ g'.players) (ho' : p'.hasOptedOut = true) :
    (∃ p ∈ g.players, p.id = p'.id ∧ p.hasOptedOut = true) ∨
    (e = Event.ctick ∧ ∃ p ∈ g.players, p.id = p'.id ∧
      p.hasOptedOut = false ∧ p.isEliminated = false ∧
      (p.time ≤ 0 ∨ p.isHoldingButton = false)) ∨
    (e = Event.rtick ∧ ∃ p ∈ g.players, p.id = p'.id ∧
      p.isHoldingButton = true ∧ p.hasOptedOut = false ∧
      p.isEliminated = false ∧ p.time - (p.roundHoldDuration + 1) ≤ 0) ∨
    (∃ pid, e = Event.release pid ∧ p'.id = pid ∧
      g.status = Status.preCountdown ∧ g.preRoundIntervalId = true) := by
  cases e with
  | hold pid =>
    simp only [applyEvent, Option.some.injEq] at h
    rw [← h] at hp'
    exact Or.inl (optFrom_playerHolding g pid p' hp' ho')
  | release pid =>
    simp only [applyEvent, Option.some.injEq] at h
    rw [← h] at hp'
    rcases optOut_playerReleased g pid p' hp' ho' with h1 | h1
    · exact Or.inl h1
    · exact Or.inr (Or.inr (Or.inr ⟨pid, rfl, h1.1, h1.2.1, h1.2.2⟩))
  | join pid pname =>
    exact Or.inl (optFrom_join g pid pname g' h p' hp' ho')
  | leave pid =>
    simp only [applyEvent] at h
    exact Or.inl (optFrom_leaveRoom g pid g' h p' hp' ho')
  | ctick =>
    simp only [applyEvent, Option.some.injEq] at h
    rw [← h] at hp'
    rcases optOut_countdownTick g p' hp' ho' with h1 | h1
    · exact Or.inl h1
    · exact Or.inr (Or.inl ⟨rfl, h1⟩)
  | rtick =>
    simp only [applyEvent, Option.some.injEq] at h
    rw [← h] at hp'
    rcases optOut_roundTick g p' hp' ho' with h1 | h1
    · exact Or.inl h1
    · exact Or.inr (Or.inr (Or.inl ⟨rfl, h1⟩))
  | fire =>
    simp only [applyEvent, Option.some.injEq] at h
    rw [← h] at hp'
    exact Or.inl (optFrom_pendingFires g p' hp' ho')

theorem startNewRound_waiting_reset (g : Game)
    (h : (startNewRound g).status = Status.waiting) :
    ∀ p ∈ (startNewRound g).players, p.hasOptedOut = false := by
  rcases startNewRound_cases g with ⟨r, hr⟩ | ⟨g₁, hpl, hr⟩
  · rw [hr, gameEnded_status] at h
    exact Status.noConfusion h
  · intro p hp
    rw [hr, updateAllPlayers_players] at hp
    obtain ⟨q, _, hq⟩ := List.mem_map.mp hp
    rw [← hq]
    rfl

/-- Player index 1 of `c5Room` after releasing during the live countdown:
the only freshly opted-out player of that step. -/
def c6RelP : Player := (playerReleased c5Room 1).players.getD 1 default

/-- C6 (amended): across any event, a player can become opted out only in
three cases — the countdown-end resolution (`ctick`) opting out a player who
was not holding or whose budget was spent, the bidding tick (`rtick`) forcing
out a holding player whose budget is exhausted, or a release while the phase
is `preCountdown` with a live countdown timer.  A release during `inRound`
never sets `hasOptedOut` (contradicting the claim's "releasing mid-round"
case), and whenever `startNewRound` actually starts a new round (resulting
phase `waiting`) every player's `hasOptedOut` is reset to false. -/
theorem C6_amended :
    (∀ e : Event, ∀ g g' : Game, applyEvent e g = some g' →
      ∀ p' ∈ g'.players, p'.hasOptedOut = true →
      (∃ p ∈ g.players, p.id = p'.id ∧ p.hasOptedOut = true) ∨
      (e = Event.ctick ∧ ∃ p ∈ g.players, p.id = p'.id ∧
        p.hasOptedOut = false ∧ p.isEliminated = false ∧
        (p.time ≤ 0 ∨ p.isHoldingButton = false)) ∨
      (e = Event.rtick ∧ ∃ p ∈ g.players, p.id = p'.id ∧
        p.isHoldingButton = true ∧ p.hasOptedOut = false ∧
        p.isEliminated = false ∧ p.time - (p.roundHoldDuration + 1) ≤ 0) ∨
      (∃ pid, e = Event.release pid ∧ p'.id = pid ∧
        g.status = Status.preCountdown ∧ g.preRoundIntervalId = true)) ∧
    (∀ g : Game, ∀ pid : Nat, g.status = Status.inRound →
      ∀ p' ∈ (playerReleased g pid).players, p'.hasOptedOut = true →
        ∃ p ∈ g.players, p.id = p'.id ∧ p.hasOptedOut = true) ∧
    (∀ g : Game, (startNewRound g).status = Status.waiting →
      ∀ p ∈ (startNewRound g).players, p.hasOptedOut = false) := by
  refine ⟨?_, ?_, ?_⟩
  · intro e g g' h p' hp' ho'
    exact optOut_applyEvent e g g' h p' hp' ho'
  · intro g pid hst p' hp' ho'
    rcases optOut_playerReleased g pid p' hp' ho' with h1 | h1
    · exact h1
    · rw [hst] at h1
      exact Status.noConfusion h1.2.1
  · intro g h
    exact startNewRound_waiting_reset g h

/-- C6 witness: the amended theorem applied at concrete rooms — the release
of player 1 during `c5Room`'s live countdown, a release in the in-round room
`c6Room`, and the first `startNewRound` of the two-player room `c5Room`. -/
theorem C6_witness :
    ((∃ p ∈ c5Room.players, p.id = c6RelP.id ∧ p.hasOptedOut = true) ∨
     (Event.release 1 = Event.ctick ∧ ∃ p ∈ c5Room.players, p.id = c6RelP.id ∧
       p.hasOptedOut = false ∧ p.isEliminated = false ∧
       (p.time ≤ 0 ∨ p.isHoldingButton = false)) ∨
     (Event.release 1 = Event.rtick ∧ ∃ p ∈ c5Room.players, p.id = c6RelP.id ∧
       p.isHoldingButton = true ∧ p.hasOptedOut = false ∧
       p.isEliminated = false ∧ p.time - (p.roundHoldDuration + 1) ≤ 0) ∨
     (∃ pid, Event.release 1 = Event.release pid ∧ c6RelP.id = pid ∧
       c5Room.status = Status.preCountdown ∧
       c5Room.preRoundIntervalId = true)) ∧
    (∀ p' ∈ (playerReleased c6Room 0).players, p'.hasOptedOut = true →
      ∃ p ∈ c6Room.players, p.id = p'.id ∧ p.hasOptedOut = true) ∧
    (∀ p ∈ (startNewRound c5Room).players, p.hasOptedOut = false) := by
  refine ⟨?_, ?_, ?_⟩
  · exact C6_amended.1 (Event.release 1) c5Room (playerReleased c5Room 1) rfl
      c6RelP (by decide) (by decide)
  · exact C6_amended.2.1 c6Room 0 (by decide)
  · exact C6_amended.2.2 c5Room (by decide)
